import Mathlib

/-!
Verification of the eve-bus event-dispatch core against its specification.

The core (Codec, Handler Registry, Subscription Manager, Event Bus façade)
is modelled from the specification text, since the repository snapshot
contains only the example applications (`examples/basic_usage.py`,
`examples/dependency_injection.py`) that call into it.  Every definition
below carries a doc comment naming the spec section it embeds.
-/

namespace EveBus

/-- Modelled from the spec: the closed value space of event field values
(§9 "tagged value variant (string/number/bool/sequence/nested-mapping)",
§4.1 "strings, numbers, booleans, nested mappings, sequences").
The eve package that declares it is absent from the snapshot. -/
inductive Value : Type where
  | str : String → Value
  | num : Int → Value
  | bool : Bool → Value
  | seq : List Value → Value
  | map : List (String × Value) → Value

mutual
/-- Boolean equality on field values. -/
def Value.beq : Value → Value → Bool
  | .str a, .str b => a == b
  | .num a, .num b => a == b
  | .bool a, .bool b => a == b
  | .seq a, .seq b => Value.beqList a b
  | .map a, .map b => Value.beqEntries a b
  | _, _ => false

/-- Boolean equality on value sequences. -/
def Value.beqList : List Value → List Value → Bool
  | [], [] => true
  | a :: as, b :: bs => Value.beq a b && Value.beqList as bs
  | _, _ => false

/-- Boolean equality on field mappings. -/
def Value.beqEntries : List (String × Value) → List (String × Value) → Bool
  | [], [] => true
  | (k, a) :: as, (l, b) :: bs => k == l && Value.beq a b && Value.beqEntries as bs
  | _, _ => false
end

/-- Structural induction over `Value` that threads through the nested lists. -/
theorem Value.inductionOn (P : Value → Prop)
    (hstr : ∀ s, P (.str s)) (hnum : ∀ n, P (.num n)) (hbool : ∀ b, P (.bool b))
    (hseq : ∀ vs, (∀ v ∈ vs, P v) → P (.seq vs))
    (hmap : ∀ fs, (∀ kv ∈ fs, P kv.2) → P (.map fs)) : ∀ v, P v
  | .str s => hstr s
  | .num n => hnum n
  | .bool b => hbool b
  | .seq vs => hseq vs (fun v hv =>
      have : sizeOf v < 1 + sizeOf vs := by
        have := List.sizeOf_lt_of_mem hv
        omega
      Value.inductionOn P hstr hnum hbool hseq hmap v)
  | .map fs => hmap fs (fun kv hkv =>
      have h1 : sizeOf kv.2 < 1 + sizeOf fs := by
        have h2 := List.sizeOf_lt_of_mem hkv
        have h3 : sizeOf kv.2 < sizeOf kv := by
          obtain ⟨k, v⟩ := kv
          simp only [Prod.mk.sizeOf_spec]
          omega
        omega
      Value.inductionOn P hstr hnum hbool hseq hmap kv.2)
termination_by v => sizeOf v

theorem Value.beq_iff : ∀ a b : Value, (Value.beq a b = true) ↔ a = b := by
  intro a
  induction a using Value.inductionOn with
  | hstr s => intro b; cases b <;> simp [Value.beq]
  | hnum n => intro b; cases b <;> simp [Value.beq]
  | hbool x => intro b; cases b <;> simp [Value.beq]
  | hseq vs ih =>
      intro b
      cases b with
      | str s => simp [Value.beq]
      | num n => simp [Value.beq]
      | bool x => simp [Value.beq]
      | map gs => simp [Value.beq]
      | seq ws =>
        simp only [Value.beq, Value.seq.injEq]
        induction vs generalizing ws with
        | nil => cases ws <;> simp [Value.beqList]
        | cons v vs ihl =>
            cases ws with
            | nil => simp [Value.beqList]
            | cons w ws =>
                simp only [Value.beqList, Bool.and_eq_true, List.cons.injEq]
                rw [ih v (by simp), ihl (fun u hu => ih u (by simp [hu])) ws]
  | hmap fs ih =>
      intro b
      cases b with
      | str s => simp [Value.beq]
      | num n => simp [Value.beq]
      | bool x => simp [Value.beq]
      | seq ws => simp [Value.beq]
      | map gs =>
        simp only [Value.beq, Value.map.injEq]
        induction fs generalizing gs with
        | nil => cases gs <;> simp [Value.beqEntries]
        | cons kv fs ihl =>
            obtain ⟨k, v⟩ := kv
            cases gs with
            | nil => simp [Value.beqEntries]
            | cons lw gs =>
                obtain ⟨l, w⟩ := lw
                simp only [Value.beqEntries, Bool.and_eq_true, List.cons.injEq,
                  Prod.mk.injEq, beq_iff_eq]
                rw [ih (k, v) (by simp), ihl (fun u hu => ih u (by simp [hu])) gs]

instance : DecidableEq Value := fun a b =>
  decidable_of_iff (Value.beq a b = true) (Value.beq_iff a b)

/-- A decoded payload: a mapping from field name to value (§3 "Decoded payload"). -/
abbrev Fields := List (String × Value)

/-- Modelled from the spec: an event instance, a type name plus named field
values (§3 "Event instance"); the `eve.domain.events.Event` base class is
absent from the snapshot. -/
structure Event : Type where
  typeName : String
  fields : Fields
deriving DecidableEq

/-- Tokens of the structured transport payload produced by the Codec
(§4.1 "transport-safe payload (e.g., structured text)"). -/
inductive Tok : Type where
  | tstr : String → Tok
  | tnum : Int → Tok
  | tbool : Bool → Tok
  | lseq : Tok
  | rseq : Tok
  | lmap : Tok
  | rmap : Tok
deriving DecidableEq, Repr

/-- A transport payload is a token stream. -/
abbrev Payload := List Tok

/-- Modelled from the spec: §4.1 `DecodeError` on malformed payload. -/
inductive DecodeError : Type where
  | malformed : DecodeError
deriving DecidableEq, Repr

/-- Modelled from the spec: §4.4 `PublishError` when the broker rejects a send. -/
inductive PublishError : Type where
  | brokerClosed : PublishError
deriving DecidableEq, Repr

instance {ε α : Type} [DecidableEq ε] [DecidableEq α] : DecidableEq (Except ε α) := fun x y =>
  match x, y with
  | .ok a, .ok b =>
      if h : a = b then isTrue (by rw [h]) else isFalse (fun he => h (Except.ok.inj he))
  | .error a, .error b =>
      if h : a = b then isTrue (by rw [h]) else isFalse (fun he => h (Except.error.inj he))
  | .ok _, .error _ => isFalse (fun he => Except.noConfusion he)
  | .error _, .ok _ => isFalse (fun he => Except.noConfusion he)

mutual
/-- Modelled from the spec: serialization of one field value (§4.1 `encode`
must round-trip all field value kinds). The codec source is absent from the
snapshot. -/
def encodeValue : Value → List Tok
  | .str s => [.tstr s]
  | .num n => [.tnum n]
  | .bool b => [.tbool b]
  | .seq vs => .lseq :: encodeList vs ++ [.rseq]
  | .map fs => .lmap :: encodeEntries fs ++ [.rmap]

/-- Serialization of a sequence body. -/
def encodeList : List Value → List Tok
  | [] => []
  | v :: vs => encodeValue v ++ encodeList vs

/-- Serialization of a mapping body: tagged key then value. -/
def encodeEntries : List (String × Value) → List Tok
  | [] => []
  | (k, v) :: fs => .tstr k :: encodeValue v ++ encodeEntries fs
end

mutual
/-- Modelled from the spec: recursive-descent parse of one value from a
token stream (§4.1 `decode`), fueled for termination; `none` is a decode
failure. -/
def parseVal : Nat → List Tok → Option (Value × List Tok)
  | 0, _ => none
  | _ + 1, [] => none
  | _ + 1, .tstr s :: ts => some (.str s, ts)
  | _ + 1, .tnum n :: ts => some (.num n, ts)
  | _ + 1, .tbool b :: ts => some (.bool b, ts)
  | f + 1, .lseq :: ts =>
      match parseSeq f ts with
      | some (vs, ts') => some (.seq vs, ts')
      | none => none
  | f + 1, .lmap :: ts =>
      match parseMap f ts with
      | some (fs, ts') => some (.map fs, ts')
      | none => none
  | _ + 1, .rseq :: _ => none
  | _ + 1, .rmap :: _ => none

/-- Parse a sequence body up to the closing token. -/
def parseSeq : Nat → List Tok → Option (List Value × List Tok)
  | 0, _ => none
  | _ + 1, [] => none
  | _ + 1, .rseq :: ts => some ([], ts)
  | f + 1, t :: ts =>
      match parseVal f (t :: ts) with
      | some (v, ts') =>
          match parseSeq f ts' with
          | some (vs, ts'') => some (v :: vs, ts'')
          | none => none
      | none => none

/-- Parse a mapping body up to the closing token. -/
def parseMap : Nat → List Tok → Option (List (String × Value) × List Tok)
  | 0, _ => none
  | _ + 1, [] => none
  | _ + 1, .rmap :: ts => some ([], ts)
  | f + 1, .tstr k :: ts =>
      match parseVal f ts with
      | some (v, ts') =>
          match parseMap f ts' with
          | some (fs, ts'') => some ((k, v) :: fs, ts'')
          | none => none
      | none => none
  | _ + 1, _ :: _ => none
end

/-- Modelled from the spec: §4.1 `encode(event) -> payload`: serializes the
event's type name and field values. -/
def encode (e : Event) : Payload :=
  .tstr e.typeName :: .lmap :: encodeEntries e.fields ++ [.rmap]

/-- Modelled from the spec: §4.1 `decode(payload) -> fieldMapping`: parses the
payload back into a mapping from field name to value, failing with a
`DecodeError` on malformed payload. -/
def decode (p : Payload) : Except DecodeError Fields :=
  match p with
  | .tstr _ :: rest =>
      match parseVal rest.length rest with
      | some (.map fs, []) => .ok fs
      | _ => .error .malformed
  | _ => .error .malformed

/-- Every encoded value starts with a token that closes neither a sequence
nor a mapping. -/
theorem encodeValue_head (v : Value) :
    ∃ t ts, encodeValue v = t :: ts ∧ t ≠ Tok.rseq ∧ t ≠ Tok.rmap := by
  cases v with
  | str s => exact ⟨.tstr s, [], rfl, by simp, by simp⟩
  | num n => exact ⟨.tnum n, [], rfl, by simp, by simp⟩
  | bool b => exact ⟨.tbool b, [], rfl, by simp, by simp⟩
  | seq vs => exact ⟨.lseq, _, rfl, by simp, by simp⟩
  | map fs => exact ⟨.lmap, _, rfl, by simp, by simp⟩

/-- Encoded values are never empty. -/
theorem encodeValue_length_pos (v : Value) : 1 ≤ (encodeValue v).length := by
  obtain ⟨t, ts, he, -, -⟩ := encodeValue_head v
  simp [he]

/-- One unfolding step of the sequence-body parser when the head token does
not close the sequence. -/
theorem parseSeq_cons (f : Nat) (t : Tok) (ts : List Tok) (h : t ≠ Tok.rseq) :
    parseSeq (f + 1) (t :: ts) =
      match parseVal f (t :: ts) with
      | some (v, ts') =>
          match parseSeq f ts' with
          | some (vs, ts'') => some (v :: vs, ts'')
          | none => none
      | none => none := by
  cases t <;> first | rfl | exact absurd rfl h

mutual
/-- The value parser undoes `encodeValue` on any sufficiently fueled run,
leaving the remainder of the stream untouched. -/
theorem parseVal_encodeValue (v : Value) (rest : List Tok) (fuel : Nat)
    (hf : (encodeValue v).length ≤ fuel) :
    parseVal fuel (encodeValue v ++ rest) = some (v, rest) := by
  cases v with
  | str s =>
      obtain ⟨f, rfl⟩ : ∃ f, fuel = f + 1 := ⟨fuel - 1, by simp [encodeValue] at hf; omega⟩
      rfl
  | num n =>
      obtain ⟨f, rfl⟩ : ∃ f, fuel = f + 1 := ⟨fuel - 1, by simp [encodeValue] at hf; omega⟩
      rfl
  | bool b =>
      obtain ⟨f, rfl⟩ : ∃ f, fuel = f + 1 := ⟨fuel - 1, by simp [encodeValue] at hf; omega⟩
      rfl
  | seq vs =>
      simp only [encodeValue, List.length_cons, List.length_append, List.length_cons,
        List.length_nil] at hf
      obtain ⟨f, rfl⟩ : ∃ f, fuel = f + 1 := ⟨fuel - 1, by omega⟩
      show parseVal (f + 1) (.lseq :: (encodeList vs ++ [.rseq] ++ rest)) = _
      have harr : encodeList vs ++ [Tok.rseq] ++ rest = encodeList vs ++ Tok.rseq :: rest := by
        simp
      rw [harr]
      show (match parseSeq f (encodeList vs ++ Tok.rseq :: rest) with
            | some (ws, ts') => some (Value.seq ws, ts')
            | none => none) = _
      rw [parseSeq_encodeList vs rest f (by omega)]
  | map fs =>
      simp only [encodeValue, List.length_cons, List.length_append, List.length_cons,
        List.length_nil] at hf
      obtain ⟨f, rfl⟩ : ∃ f, fuel = f + 1 := ⟨fuel - 1, by omega⟩
      show parseVal (f + 1) (.lmap :: (encodeEntries fs ++ [.rmap] ++ rest)) = _
      have harr : encodeEntries fs ++ [Tok.rmap] ++ rest = encodeEntries fs ++ Tok.rmap :: rest := by
        simp
      rw [harr]
      show (match parseMap f (encodeEntries fs ++ Tok.rmap :: rest) with
            | some (gs, ts') => some (Value.map gs, ts')
            | none => none) = _
      rw [parseMap_encodeEntries fs rest f (by omega)]

/-- The sequence-body parser undoes `encodeList` up to the closing token. -/
theorem parseSeq_encodeList (ws : List Value) (rest : List Tok) (fuel : Nat)
    (hf : (encodeList ws).length + 1 ≤ fuel) :
    parseSeq fuel (encodeList ws ++ Tok.rseq :: rest) = some (ws, rest) := by
  cases ws with
  | nil =>
      obtain ⟨f, rfl⟩ : ∃ f, fuel = f + 1 := ⟨fuel - 1, by omega⟩
      rfl
  | cons v vs =>
      have hv := encodeValue_length_pos v
      have hlen : (encodeList (v :: vs)).length =
          (encodeValue v).length + (encodeList vs).length := by
        simp [encodeList]
      rw [hlen] at hf
      obtain ⟨f, rfl⟩ : ∃ f, fuel = f + 1 := ⟨fuel - 1, by omega⟩
      obtain ⟨t, ts, he, ht, -⟩ := encodeValue_head v
      have hshape : encodeList (v :: vs) ++ Tok.rseq :: rest =
          t :: (ts ++ (encodeList vs ++ Tok.rseq :: rest)) := by
        simp [encodeList, he]
      rw [hshape, parseSeq_cons f t _ ht]
      have hvp : parseVal f (t :: (ts ++ (encodeList vs ++ Tok.rseq :: rest))) =
          some (v, encodeList vs ++ Tok.rseq :: rest) := by
        have := parseVal_encodeValue v (encodeList vs ++ Tok.rseq :: rest) f (by omega)
        rw [he] at this
        simpa using this
      rw [hvp]
      show (match parseSeq f (encodeList vs ++ Tok.rseq :: rest) with
            | some (ws, ts'') => some (v :: ws, ts'')
            | none => none) = _
      rw [parseSeq_encodeList vs rest f (by omega)]

/-- The mapping-body parser undoes `encodeEntries` up to the closing token. -/
theorem parseMap_encodeEntries (gs : List (String × Value)) (rest : List Tok) (fuel : Nat)
    (hf : (encodeEntries gs).length + 1 ≤ fuel) :
    parseMap fuel (encodeEntries gs ++ Tok.rmap :: rest) = some (gs, rest) := by
  cases gs with
  | nil =>
      obtain ⟨f, rfl⟩ : ∃ f, fuel = f + 1 := ⟨fuel - 1, by omega⟩
      rfl
  | cons kv fs =>
      obtain ⟨k, v⟩ := kv
      have hv := encodeValue_length_pos v
      have hlen : (encodeEntries ((k, v) :: fs)).length =
          1 + (encodeValue v).length + (encodeEntries fs).length := by
        simp [encodeEntries]; omega
      rw [hlen] at hf
      obtain ⟨f, rfl⟩ : ∃ f, fuel = f + 1 := ⟨fuel - 1, by omega⟩
      have hshape : encodeEntries ((k, v) :: fs) ++ Tok.rmap :: rest =
          Tok.tstr k :: (encodeValue v ++ (encodeEntries fs ++ Tok.rmap :: rest)) := by
        simp [encodeEntries]
      rw [hshape]
      show (match parseVal f (encodeValue v ++ (encodeEntries fs ++ Tok.rmap :: rest)) with
            | some (w, ts') =>
                match parseMap f ts' with
                | some (hs, ts'') => some ((k, w) :: hs, ts'')
                | none => none
            | none => none) = _
      rw [parseVal_encodeValue v _ f (by omega)]
      show (match parseMap f (encodeEntries fs ++ Tok.rmap :: rest) with
            | some (hs, ts'') => some ((k, v) :: hs, ts'')
            | none => none) = _
      rw [parseMap_encodeEntries fs rest f (by omega)]
end

/-- The Codec round-trips every event: decoding an encoded event recovers
exactly its field mapping. -/
theorem decode_encode (e : Event) : decode (encode e) = .ok e.fields := by
  have hv : Tok.lmap :: encodeEntries e.fields ++ [Tok.rmap] =
      encodeValue (Value.map e.fields) ++ [] := by simp [encodeValue]
  show decode (Tok.tstr e.typeName :: (Tok.lmap :: encodeEntries e.fields ++ [Tok.rmap])) = _
  simp only [decode]
  rw [hv, parseVal_encodeValue (Value.map e.fields) [] _ (by simp)]

/-- Handler identity (§3 "Handler ... Identity matters for unsubscription"):
handlers are identified by the callable object, modelled as an abstract
identifier. -/
abbrev Handler := Nat

/-- Modelled from the spec: the Handler Registry's table mapping an
event-type name to its set of registered handlers (§4.2); entries exist
exactly for names with at least one handler (§3 "Registry entry"). The
registry source is absent from the snapshot. -/
abbrev Registry := List (String × List Handler)

/-- Modelled from the spec: §4.2 `handlersFor(typeName) -> snapshot` of the
current handler set for dispatch. -/
def handlersFor (r : Registry) (t : String) : List Handler :=
  match r.find? (fun p => p.1 == t) with
  | some p => p.2
  | none => []

/-- Modelled from the spec: §4.2 `register(typeName, handler)`: adds the
handler to the set for the name, keeping registration order, idempotent per
(typeName, handler) identity; returns whether this created a new
subscription (the set was empty before). -/
def register (r : Registry) (t : String) (h : Handler) : Registry × Bool :=
  match r.find? (fun p => p.1 == t) with
  | none => ((t, [h]) :: r, true)
  | some _ =>
      (r.map (fun p => if p.1 == t then (p.1, if h ∈ p.2 then p.2 else p.2 ++ [h]) else p),
       false)

/-- Modelled from the spec: §4.2 `unregister(typeName, handler)`: removes
the handler (no-op when absent), dropping the entry when its set becomes
empty; returns whether the name still has handlers. -/
def unregister (r : Registry) (t : String) (h : Handler) : Registry × Bool :=
  let r' := (r.map (fun p => if p.1 == t then (p.1, p.2.filter (fun h' => h' != h)) else p)).filter
      (fun p => !p.2.isEmpty)
  (r', !(handlersFor r' t).isEmpty)

/-- Registry well-formedness: names are unique keys and no entry holds an
empty handler set, and each handler appears at most once per entry. -/
def RegWF (r : Registry) : Prop :=
  (r.map Prod.fst).Nodup ∧ ∀ p ∈ r, p.2 ≠ [] ∧ p.2.Nodup

/-- One record of observable dispatch activity: a handler invocation with the
decoded fields it received, a logged per-handler error (§7 `HandlerError`),
or a logged decode failure (§7 `DecodeError`). -/
inductive LogEntry : Type where
  | invoked : Handler → String → Fields → LogEntry
  | handlerError : String → Handler → LogEntry
  | decodeFailed : String → LogEntry
deriving DecidableEq

/-- Modelled from the spec: the state owned by one Event Bus instance: its
Handler Registry, the set of active listeners (one per subscribed type
name, §4.3), the broker-side pending message queue per subscribed channel,
the observable dispatch log, and whether `shutdown()` has closed the bus. -/
structure BusState : Type where
  registry : Registry
  listeners : List String
  queues : List (String × List Payload)
  log : List LogEntry
  closed : Bool
deriving DecidableEq

/-- The bus as freshly constructed: nothing registered, no listeners, open. -/
def initBus : BusState :=
  { registry := [], listeners := [], queues := [], log := [], closed := false }

/-- Pending broker messages for one channel, reading a raw channel table. -/
def queueLookup (qs : List (String × List Payload)) (t : String) : List Payload :=
  match qs.find? (fun p => p.1 == t) with
  | some p => p.2
  | none => []

/-- Pending broker messages for one channel of a bus. -/
def queueOf (s : BusState) (t : String) : List Payload :=
  queueLookup s.queues t

/-- Replace one channel's pending queue. -/
def setQueue (qs : List (String × List Payload)) (t : String) (ms : List Payload) :
    List (String × List Payload) :=
  (t, ms) :: qs.filter (fun p => p.1 ≠ t)

/-- Modelled from the spec: §4.4 `subscribe(typeName, handler)`: registers
the handler and, when this created a new subscription, starts the listener
for the name. -/
def subscribeOp (s : BusState) (t : String) (h : Handler) : BusState :=
  if s.closed then s
  else
    let rb := register s.registry t h
    { s with
      registry := rb.1
      listeners := if rb.2 then t :: s.listeners else s.listeners }

/-- Modelled from the spec: §4.4 `unsubscribe(typeName, handler)`:
unregisters the handler and, when the set became empty, stops the listener
(closing its broker subscription, which discards its pending stream). -/
def unsubscribeOp (s : BusState) (t : String) (h : Handler) : BusState :=
  if s.closed then s
  else
    let rb := unregister s.registry t h
    { s with
      registry := rb.1
      listeners := if rb.2 then s.listeners else s.listeners.filter (fun t' => t' ≠ t)
      queues := if rb.2 then s.queues else setQueue s.queues t [] }

/-- Modelled from the spec: §4.4 `publish(event)`: encodes via the Codec and
sends to the broker channel named after the event's type; fails with a
`PublishError` when the broker connection is closed. A channel with no open
subscription has no subscriber-side stream, so the message is not retained
anywhere (pub/sub, no durability: §1 non-goals). -/
def publishOp (s : BusState) (e : Event) : Except PublishError BusState :=
  if s.closed then .error .brokerClosed
  else
    .ok (if e.typeName ∈ s.listeners then
          { s with queues := setQueue s.queues e.typeName (queueOf s e.typeName ++ [encode e]) }
        else s)

/-- One handler invocation during fan-out: the handler is invoked with the
decoded fields; when its behaviour `raises` on those fields, the exception
is caught per-handler and logged with the event-type name and handler
identity (§7 `HandlerError`). -/
def dispatchTo (raises : Handler → Fields → Bool) (t : String) (fields : Fields)
    (hs : List Handler) : List LogEntry :=
  hs.flatMap (fun h =>
    if raises h fields then [.invoked h t fields, .handlerError t h]
    else [.invoked h t fields])

/-- Modelled from the spec: one iteration of the listener loop for a type
name (§4.3 RUNNING): receive the next pending broker message, decode it —
on `DecodeError` log and drop the message, loop continues — and dispatch the
decoded fields to the registry's current snapshot sequentially. -/
def deliverOp (raises : Handler → Fields → Bool) (s : BusState) (t : String) : BusState :=
  if s.closed then s
  else if t ∈ s.listeners then
    match queueOf s t with
    | [] => s
    | p :: rest =>
        let s' := { s with queues := setQueue s.queues t rest }
        match decode p with
        | .error _ => { s' with log := s'.log ++ [.decodeFailed t] }
        | .ok fields =>
            { s' with log := s'.log ++ dispatchTo raises t fields (handlersFor s.registry t) }
  else s

/-- Modelled from the spec: §4.4 `shutdown()`: stops all active listeners of
this bus and closes owned broker resources; safe to call twice. -/
def shutdownOp (s : BusState) : BusState :=
  { s with listeners := [], queues := [], closed := true }

/-- The commands a run of the system can interleave: the façade operations,
a broker delivery step for one listener, and the broker handing an arbitrary
(possibly malformed) payload to a subscribed channel. -/
inductive Cmd : Type where
  | subscribe : String → Handler → Cmd
  | unsubscribe : String → Handler → Cmd
  | publish : Event → Cmd
  | recv : String → Payload → Cmd
  | deliver : String → Cmd
  | shutdown : Cmd
deriving DecidableEq

/-- Small-step interpretation of one command against the bus state; a
`PublishError` is surfaced to the publishing caller and leaves the state
unchanged. -/
def step (raises : Handler → Fields → Bool) (s : BusState) : Cmd → BusState
  | .subscribe t h => subscribeOp s t h
  | .unsubscribe t h => unsubscribeOp s t h
  | .publish e =>
      match publishOp s e with
      | .ok s' => s'
      | .error _ => s
  | .recv t p =>
      if ¬ s.closed ∧ t ∈ s.listeners then
        { s with queues := setQueue s.queues t (queueOf s t ++ [p]) }
      else s
  | .deliver t => deliverOp raises s t
  | .shutdown => shutdownOp s

/-- Run a command list from a state. -/
def run (raises : Handler → Fields → Bool) (s : BusState) (cmds : List Cmd) : BusState :=
  cmds.foldl (step raises) s

/-- The core state invariant (§4.3): listeners are pairwise distinct — at
most one listener per (bus, type name) — and, while the bus is open, a
listener for a name exists exactly when the registry holds handlers for it;
a closed bus has no listeners, and the registry is well formed. -/
def Inv (s : BusState) : Prop :=
  s.listeners.Nodup ∧
  RegWF s.registry ∧
  (s.closed = false → ∀ t, t ∈ s.listeners ↔ handlersFor s.registry t ≠ []) ∧
  (s.closed = true → s.listeners = [])

/-! ### Handler Registry lemmas -/

/-- A name outside the registry's keys has no handlers. -/
theorem handlersFor_eq_nil_of_not_mem_keys {r : Registry} {t : String}
    (h : t ∉ r.map Prod.fst) : handlersFor r t = [] := by
  induction r with
  | nil => rfl
  | cons q r ih =>
      simp only [List.map_cons, List.mem_cons, not_or] at h
      have hq : (q.1 == t) = false := by
        simp only [beq_eq_false_iff_ne]
        exact fun he => h.1 (by simp [he])
      simp only [handlersFor, List.find?]
      rw [hq]
      exact ih h.2

/-- A non-empty handler set means the name is among the registry's keys. -/
theorem mem_keys_of_handlersFor_ne_nil {r : Registry} {t : String}
    (h : handlersFor r t ≠ []) : t ∈ r.map Prod.fst := by
  by_contra hc
  exact h (handlersFor_eq_nil_of_not_mem_keys hc)

/-- Under well-formedness, `register` reports a new subscription exactly when
the name had no handlers. -/
theorem register_snd_iff {r : Registry} {t : String} (hwf : RegWF r) (h : Handler) :
    (register r t h).2 = true ↔ handlersFor r t = [] := by
  unfold register
  cases hfind : r.find? (fun p => p.1 == t) with
  | none =>
      simp only [true_iff]
      apply handlersFor_eq_nil_of_not_mem_keys
      intro hmem
      obtain ⟨p, hp, hfst⟩ := List.mem_map.mp hmem
      have := List.find?_eq_none.mp hfind p hp
      simp [hfst] at this
  | some p =>
      simp only [Bool.false_eq_true, false_iff]
      have hmem := List.mem_of_find?_eq_some hfind
      have hne := (hwf.2 p hmem).1
      unfold handlersFor
      rw [hfind]
      exact hne

/-- `register` leaves the handler sets of other names unchanged. -/
theorem handlersFor_register_other {r : Registry} {t t' : String} {h : Handler}
    (hne : t' ≠ t) : handlersFor (register r t h).1 t' = handlersFor r t' := by
  unfold register
  cases hfind : r.find? (fun p => p.1 == t) with
  | none =>
      simp only [handlersFor, List.find?]
      have : (t == t') = false := by simp [beq_eq_false_iff_ne]; exact fun he => hne he.symm
      rw [this]
  | some p =>
      simp only [handlersFor]
      rw [List.find?_map]
      have hpred : ((fun p => p.1 == t') ∘
          (fun p => if p.1 == t then (p.1, if h ∈ p.2 then p.2 else p.2 ++ [h]) else p)) =
          (fun p : String × List Handler => p.1 == t') := by
        funext q
        by_cases hq : q.1 = t <;> simp [hq]
      rw [hpred]
      cases hfind' : r.find? (fun p => p.1 == t') with
      | none => rfl
      | some q =>
          have hq : q.1 = t' := by simpa using List.find?_some hfind'
          have hmap : Option.map
              (fun p => if (p.1 == t) = true then (p.1, if h ∈ p.2 then p.2 else p.2 ++ [h]) else p)
              (some q) = some q := by
            simp [hq, hne]
          rw [hmap]

/-- `register` appends the handler to the name's set when absent and leaves
the set unchanged when present. -/
theorem handlersFor_register_self {r : Registry} {t : String} {h : Handler} :
    handlersFor (register r t h).1 t =
      if h ∈ handlersFor r t then handlersFor r t else handlersFor r t ++ [h] := by
  unfold register
  cases hfind : r.find? (fun p => p.1 == t) with
  | none =>
      have hnone : handlersFor r t = [] := by unfold handlersFor; rw [hfind]
      have hL : handlersFor ((t, [h]) :: r) t = [h] := by simp [handlersFor, List.find?]
      rw [hL, hnone]
      simp
  | some p =>
      have hval : handlersFor r t = p.2 := by unfold handlersFor; rw [hfind]
      simp only [handlersFor]
      rw [List.find?_map]
      have hpred : ((fun p => p.1 == t) ∘
          (fun p => if p.1 == t then (p.1, if h ∈ p.2 then p.2 else p.2 ++ [h]) else p)) =
          (fun p : String × List Handler => p.1 == t) := by
        funext q
        by_cases hq : q.1 = t <;> simp [hq]
      rw [hpred, hfind]
      have hp : p.1 = t := by simpa using List.find?_some hfind
      simp [hp, hval]

/-- `register` preserves registry well-formedness. -/
theorem regWF_register {r : Registry} {t : String} {h : Handler} (hwf : RegWF r) :
    RegWF (register r t h).1 := by
  unfold register
  cases hfind : r.find? (fun p => p.1 == t) with
  | none =>
      constructor
      · simp only [List.map_cons]
        refine List.nodup_cons.mpr ⟨?_, hwf.1⟩
        intro hmem
        obtain ⟨p, hp, hfst⟩ := List.mem_map.mp hmem
        have := List.find?_eq_none.mp hfind p hp
        simp [hfst] at this
      · intro p hp
        rcases List.mem_cons.mp hp with rfl | hp'
        · exact ⟨by simp, by simp⟩
        · exact hwf.2 p hp'
  | some _ =>
      constructor
      · have hkeys : ((r.map
            (fun p => if p.1 == t then (p.1, if h ∈ p.2 then p.2 else p.2 ++ [h]) else p)).map
              Prod.fst) = r.map Prod.fst := by
          rw [List.map_map]
          apply List.map_congr_left
          intro q _
          by_cases hq : q.1 = t <;> simp [hq]
        rw [hkeys]
        exact hwf.1
      · intro p hp
        obtain ⟨q, hq, heq⟩ := List.mem_map.mp hp
        by_cases hqt : q.1 = t
        · rw [if_pos (by simp [hqt])] at heq
          subst heq
          refine ⟨?_, ?_⟩
          · by_cases hmem : h ∈ q.2 <;> simp [hmem, (hwf.2 q hq).1]
          · by_cases hmem : h ∈ q.2
            · simpa [hmem] using (hwf.2 q hq).2
            · simp only [hmem, if_neg, ite_false]
              exact List.Nodup.append ((hwf.2 q hq).2) (List.nodup_singleton h)
                (by simp [hmem])
        · rw [if_neg (by simp [hqt])] at heq
          subst heq
          exact hwf.2 q hq

/-- `handlersFor` at the key of the head entry. -/
theorem handlersFor_cons_self {q : String × List Handler} {r : Registry} {t : String}
    (hq : q.1 = t) : handlersFor (q :: r) t = q.2 := by
  unfold handlersFor
  rw [List.find?_cons_of_pos _ (by simp [hq])]

/-- `handlersFor` skips a head entry with a different key. -/
theorem handlersFor_cons_other {q : String × List Handler} {r : Registry} {t : String}
    (hq : q.1 ≠ t) : handlersFor (q :: r) t = handlersFor r t := by
  unfold handlersFor
  rw [List.find?_cons_of_neg _ (by simp [hq])]

/-- Unfolding `unregister` on a head entry for the name whose filtered set
survives. -/
theorem unregister_cons_self_kept {q : String × List Handler} {r : Registry} {t : String}
    {h : Handler} (hq : q.1 = t) (hk : q.2.filter (fun h' => h' != h) ≠ []) :
    (unregister (q :: r) t h).1 =
      (q.1, q.2.filter (fun h' => h' != h)) :: (unregister r t h).1 := by
  have hupd : (if (q.1 == t) = true then (q.1, q.2.filter (fun h' => h' != h)) else q) =
      (q.1, q.2.filter (fun h' => h' != h)) := if_pos (by simp [hq])
  unfold unregister
  simp only [List.map_cons, List.filter_cons, hupd]
  rw [if_pos (by simp [hk])]

/-- Unfolding `unregister` on a head entry for the name whose filtered set
becomes empty: the entry is dropped. -/
theorem unregister_cons_self_dropped {q : String × List Handler} {r : Registry} {t : String}
    {h : Handler} (hq : q.1 = t) (hk : q.2.filter (fun h' => h' != h) = []) :
    (unregister (q :: r) t h).1 = (unregister r t h).1 := by
  have hupd : (if (q.1 == t) = true then (q.1, q.2.filter (fun h' => h' != h)) else q) =
      (q.1, q.2.filter (fun h' => h' != h)) := if_pos (by simp [hq])
  unfold unregister
  simp only [List.map_cons, List.filter_cons, hupd]
  rw [if_neg (by simp [hk])]

/-- Unfolding `unregister` on a head entry for a different name. -/
theorem unregister_cons_other {q : String × List Handler} {r : Registry} {t : String}
    {h : Handler} (hq : q.1 ≠ t) (hne : q.2 ≠ []) :
    (unregister (q :: r) t h).1 = q :: (unregister r t h).1 := by
  have hupd : (if (q.1 == t) = true then (q.1, q.2.filter (fun h' => h' != h)) else q) = q :=
    if_neg (by simp [hq])
  unfold unregister
  simp only [List.map_cons, List.filter_cons, hupd]
  rw [if_pos (by simp [hne])]

/-- Well-formedness of a registry restricts to its tail. -/
theorem regWF_tail {q : String × List Handler} {r : Registry} (hwf : RegWF (q :: r)) :
    RegWF r :=
  ⟨(List.nodup_cons.mp hwf.1).2, fun p hp => hwf.2 p (List.mem_cons_of_mem q hp)⟩

/-- The entries surviving `unregister` carry keys drawn from the original
registry. -/
theorem keys_unregister_subset {r : Registry} {t : String} {h : Handler} {t' : String}
    (hmem : t' ∈ ((unregister r t h).1.map Prod.fst)) : t' ∈ r.map Prod.fst := by
  obtain ⟨p, hp, hfst⟩ := List.mem_map.mp hmem
  unfold unregister at hp
  simp only at hp
  obtain ⟨hp', -⟩ := List.mem_filter.mp hp
  obtain ⟨q, hq, heq⟩ := List.mem_map.mp hp'
  refine List.mem_map.mpr ⟨q, hq, ?_⟩
  by_cases hqt : q.1 = t
  · rw [if_pos (by simp [hqt])] at heq
    rw [← heq] at hfst
    exact hfst
  · rw [if_neg (by simp [hqt])] at heq
    rw [heq, hfst]

/-- `unregister` removes exactly the given handler from the name's set. -/
theorem handlersFor_unregister_self {r : Registry} {t : String} {h : Handler}
    (hwf : RegWF r) :
    handlersFor (unregister r t h).1 t = (handlersFor r t).filter (fun h' => h' != h) := by
  induction r with
  | nil => rfl
  | cons q r ih =>
      have hwf' : RegWF r := regWF_tail hwf
      by_cases hqt : q.1 = t
      · have hkey : t ∉ r.map Prod.fst := by
          have := (List.nodup_cons.mp hwf.1).1
          simpa [hqt] using this
        rw [handlersFor_cons_self hqt]
        by_cases hemp : q.2.filter (fun h' => h' != h) = []
        · rw [unregister_cons_self_dropped hqt hemp, hemp]
          apply handlersFor_eq_nil_of_not_mem_keys
          intro hc
          exact hkey (keys_unregister_subset hc)
        · rw [unregister_cons_self_kept hqt hemp,
            handlersFor_cons_self
              (show ((q.1, q.2.filter (fun h' => h' != h))).1 = t from hqt)]
      · rw [handlersFor_cons_other hqt,
          unregister_cons_other hqt (hwf.2 q (by simp)).1,
          handlersFor_cons_other hqt]
        exact ih hwf'

/-- `unregister` leaves the handler sets of other names unchanged. -/
theorem handlersFor_unregister_other {r : Registry} {t t' : String} {h : Handler}
    (hwf : RegWF r) (hne : t' ≠ t) :
    handlersFor (unregister r t h).1 t' = handlersFor r t' := by
  induction r with
  | nil => rfl
  | cons q r ih =>
      have hwf' : RegWF r := regWF_tail hwf
      by_cases hqt : q.1 = t
      · have hq' : q.1 ≠ t' := by rw [hqt]; exact fun he => hne he.symm
        rw [handlersFor_cons_other hq']
        by_cases hemp : q.2.filter (fun h' => h' != h) = []
        · rw [unregister_cons_self_dropped hqt hemp]
          exact ih hwf'
        · rw [unregister_cons_self_kept hqt hemp,
            handlersFor_cons_other
              (show ((q.1, q.2.filter (fun h' => h' != h))).1 ≠ t' from hq')]
          exact ih hwf'
      · rw [unregister_cons_other hqt (hwf.2 q (by simp)).1]
        by_cases hqt' : q.1 = t'
        · rw [handlersFor_cons_self hqt', handlersFor_cons_self hqt']
        · rw [handlersFor_cons_other hqt', handlersFor_cons_other hqt']
          exact ih hwf'

/-- `unregister` preserves registry well-formedness. -/
theorem regWF_unregister {r : Registry} {t : String} {h : Handler} (hwf : RegWF r) :
    RegWF (unregister r t h).1 := by
  unfold unregister
  simp only
  constructor
  · have hsub : (((r.map
        (fun p => if p.1 == t then (p.1, p.2.filter (fun h' => h' != h)) else p)).filter
          (fun p => !p.2.isEmpty)).map Prod.fst).Sublist
        ((r.map (fun p => if p.1 == t then (p.1, p.2.filter (fun h' => h' != h)) else p)).map
          Prod.fst) :=
      List.Sublist.map Prod.fst (List.filter_sublist _)
    have hkeys : (r.map
        (fun p => if p.1 == t then (p.1, p.2.filter (fun h' => h' != h)) else p)).map
          Prod.fst = r.map Prod.fst := by
      rw [List.map_map]
      apply List.map_congr_left
      intro q _
      by_cases hq : q.1 = t <;> simp [hq]
    rw [hkeys] at hsub
    exact hwf.1.sublist hsub
  · intro p hp
    obtain ⟨hp', hkeep⟩ := List.mem_filter.mp hp
    obtain ⟨q, hq, heq⟩ := List.mem_map.mp hp'
    constructor
    · simpa using hkeep
    · by_cases hqt : q.1 = t
      · rw [if_pos (by simp [hqt])] at heq
        rw [← heq]
        exact List.Nodup.filter _ (hwf.2 q hq).2
      · rw [if_neg (by simp [hqt])] at heq
        rw [← heq]
        exact (hwf.2 q hq).2

/-- `unregister` reports remaining handlers exactly when the name's set is
still non-empty afterwards. -/
theorem unregister_snd_iff {r : Registry} {t : String} {h : Handler} :
    (unregister r t h).2 = true ↔ handlersFor (unregister r t h).1 t ≠ [] := by
  unfold unregister
  simp

/-- Unregistering an absent handler is a no-op on the registry. -/
theorem unregister_absent {r : Registry} {t : String} {h : Handler} (hwf : RegWF r)
    (habs : h ∉ handlersFor r t) : (unregister r t h).1 = r := by
  induction r with
  | nil => rfl
  | cons q r ih =>
      have hwf' : RegWF r := regWF_tail hwf
      by_cases hqt : q.1 = t
      · rw [handlersFor_cons_self hqt] at habs
        have hfix : q.2.filter (fun h' => h' != h) = q.2 :=
          List.filter_eq_self.mpr (fun a ha => by
            simp only [bne_iff_ne, ne_eq, decide_eq_true_eq]
            exact fun he => habs (he ▸ ha))
        have hk : q.2.filter (fun h' => h' != h) ≠ [] := by
          rw [hfix]; exact (hwf.2 q (by simp)).1
        rw [unregister_cons_self_kept hqt hk, hfix]
        have hkey : t ∉ r.map Prod.fst := by
          have := (List.nodup_cons.mp hwf.1).1
          simpa [hqt] using this
        have hrest : (unregister r t h).1 = r := by
          apply ih hwf'
          rw [handlersFor_eq_nil_of_not_mem_keys hkey]
          simp
        rw [hrest, hqt, ← hqt]
      · rw [handlersFor_cons_other hqt] at habs
        rw [unregister_cons_other hqt (hwf.2 q (by simp)).1, ih hwf' habs]

/-! ### Broker queue lemmas -/

/-- `find?` commutes with a filter that can only discard non-matching
elements. -/
theorem find?_filter_of_imp {α : Type} (l : List α) (p q : α → Bool)
    (him : ∀ a, p a = true → q a = true) : (l.filter q).find? p = l.find? p := by
  induction l with
  | nil => rfl
  | cons a l ih =>
      by_cases hq : q a = true
      · rw [List.filter_cons_of_pos hq]
        by_cases hp : p a = true
        · rw [List.find?_cons_of_pos _ hp, List.find?_cons_of_pos _ hp]
        · rw [List.find?_cons_of_neg _ hp, List.find?_cons_of_neg _ hp, ih]
      · have hp : ¬ p a = true := fun hpa => hq (him a hpa)
        rw [List.filter_cons_of_neg (by simpa using hq), List.find?_cons_of_neg _ hp, ih]

/-- Reading the channel just written by `setQueue`. -/
theorem queueLookup_setQueue_self (qs : List (String × List Payload))
    (t : String) (ms : List Payload) :
    queueLookup (setQueue qs t ms) t = ms := by
  unfold queueLookup setQueue
  rw [List.find?_cons_of_pos _ (by simp)]

/-- Reading another channel after `setQueue`. -/
theorem queueLookup_setQueue_other (qs : List (String × List Payload))
    {t t' : String} (ms : List Payload) (hne : t' ≠ t) :
    queueLookup (setQueue qs t ms) t' = queueLookup qs t' := by
  unfold queueLookup setQueue
  rw [List.find?_cons_of_neg _ (by simp; exact fun he => hne he.symm)]
  rw [find?_filter_of_imp]
  intro a ha
  simp only [beq_iff_eq] at ha
  simp [ha, hne]

/-- Unfolding one listener iteration on an open bus with an active listener
and a pending message. -/
theorem deliverOp_cons (raises : Handler → Fields → Bool) {s : BusState} {t : String}
    {p : Payload} {rest : List Payload} (hopen : s.closed = false) (hlis : t ∈ s.listeners)
    (hq : queueOf s t = p :: rest) :
    deliverOp raises s t =
      match decode p with
      | .error _ =>
          ({ s with
              queues := setQueue s.queues t rest
              log := s.log ++ [.decodeFailed t] })
      | .ok fields =>
          ({ s with
              queues := setQueue s.queues t rest
              log := s.log ++ dispatchTo raises t fields (handlersFor s.registry t) }) := by
  unfold deliverOp
  rw [if_neg (by simp [hopen]), if_pos hlis, hq]

/-- Unfolding a publish step on an open bus with an active listener for the
event's type: the encoded payload is appended to that channel's queue. -/
theorem step_publish_eq (raises : Handler → Fields → Bool) {s : BusState} {e : Event}
    (hopen : s.closed = false) (hlis : e.typeName ∈ s.listeners) :
    step raises s (.publish e) =
      { s with queues := setQueue s.queues e.typeName (queueOf s e.typeName ++ [encode e]) } := by
  show (match publishOp s e with | .ok s' => s' | .error _ => s) = _
  unfold publishOp
  rw [if_neg (by simp [hopen]), if_pos hlis]

/-! ### Invariant preservation -/

/-- Operations that touch neither registry, listeners, nor the closed flag
preserve the invariant. -/
theorem inv_of_same_core {s s' : BusState} (hinv : Inv s)
    (hr : s'.registry = s.registry) (hl : s'.listeners = s.listeners)
    (hc : s'.closed = s.closed) : Inv s' := by
  obtain ⟨h1, h2, h3, h4⟩ := hinv
  exact ⟨hl ▸ h1, hr ▸ h2, by rw [hc, hl, hr]; exact h3, by rw [hc, hl]; exact h4⟩

/-- `subscribeOp` preserves the bus invariant. -/
theorem inv_subscribeOp {s : BusState} (hinv : Inv s) (t : String) (h : Handler) :
    Inv (subscribeOp s t h) := by
  obtain ⟨hnd, hwf, hiff, hcl⟩ := hinv
  unfold subscribeOp
  by_cases hc : s.closed
  · rw [if_pos hc]; exact ⟨hnd, hwf, hiff, hcl⟩
  · rw [if_neg hc]
    simp only
    have hopen : s.closed = false := by simpa using hc
    by_cases hnew : (register s.registry t h).2 = true
    · have hempty : handlersFor s.registry t = [] := (register_snd_iff hwf h).mp hnew
      have hnot : t ∉ s.listeners := fun hmem => ((hiff hopen t).mp hmem) hempty
      rw [if_pos hnew]
      refine ⟨List.nodup_cons.mpr ⟨hnot, hnd⟩, regWF_register hwf, ?_, ?_⟩
      · intro _ t'
        by_cases ht' : t' = t
        · subst ht'
          simp only [List.mem_cons, true_or, true_iff]
          rw [handlersFor_register_self, hempty]
          simp
        · rw [handlersFor_register_other ht']
          simp only [List.mem_cons]
          constructor
          · rintro (rfl | hmem)
            · exact absurd rfl ht'
            · exact (hiff hopen t').mp hmem
          · intro hne
            exact Or.inr ((hiff hopen t').mpr hne)
      · intro hcontra
        rw [hopen] at hcontra
        exact absurd hcontra (by simp)
    · have hne : handlersFor s.registry t ≠ [] := by
        intro hemp
        exact hnew ((register_snd_iff hwf h).mpr hemp)
      rw [if_neg hnew]
      refine ⟨hnd, regWF_register hwf, ?_, ?_⟩
      · intro _ t'
        by_cases ht' : t' = t
        · subst ht'
          rw [handlersFor_register_self]
          constructor
          · intro _
            by_cases hmem : h ∈ handlersFor s.registry t'
            · simpa [hmem] using hne
            · simp [hmem]
          · intro _
            exact (hiff hopen t').mpr hne
        · rw [handlersFor_register_other ht']
          exact hiff hopen t'
      · intro hcontra
        rw [hopen] at hcontra
        exact absurd hcontra (by simp)

/-- `unsubscribeOp` preserves the bus invariant. -/
theorem inv_unsubscribeOp {s : BusState} (hinv : Inv s) (t : String) (h : Handler) :
    Inv (unsubscribeOp s t h) := by
  obtain ⟨hnd, hwf, hiff, hcl⟩ := hinv
  unfold unsubscribeOp
  by_cases hc : s.closed
  · rw [if_pos hc]; exact ⟨hnd, hwf, hiff, hcl⟩
  · rw [if_neg hc]
    simp only
    have hopen : s.closed = false := by simpa using hc
    by_cases hstill : (unregister s.registry t h).2 = true
    · have hrem : handlersFor (unregister s.registry t h).1 t ≠ [] :=
        unregister_snd_iff.mp hstill
      rw [if_pos hstill, if_pos hstill]
      refine ⟨hnd, regWF_unregister hwf, ?_, ?_⟩
      · intro _ t'
        by_cases ht' : t' = t
        · subst ht'
          rw [handlersFor_unregister_self hwf]
          constructor
          · intro _
            rw [← handlersFor_unregister_self hwf]
            exact hrem
          · intro _
            apply (hiff hopen t').mpr
            intro hemp
            rw [handlersFor_unregister_self hwf, hemp] at hrem
            exact hrem rfl
        · rw [handlersFor_unregister_other hwf ht']
          exact hiff hopen t'
      · intro hcontra
        rw [hopen] at hcontra
        exact absurd hcontra (by simp)
    · have hgone : handlersFor (unregister s.registry t h).1 t = [] := by
        by_contra hcon
        exact hstill (unregister_snd_iff.mpr hcon)
      rw [if_neg hstill, if_neg hstill]
      refine ⟨List.Nodup.filter _ hnd, regWF_unregister hwf, ?_, ?_⟩
      · intro _ t'
        by_cases ht' : t' = t
        · subst ht'
          rw [hgone]
          simp only [ne_eq, not_true_eq_false, iff_false]
          intro hmem
          have := (List.mem_filter.mp hmem).2
          simp at this
        · rw [handlersFor_unregister_other hwf ht']
          rw [List.mem_filter]
          constructor
          · intro hmem
            exact (hiff hopen t').mp hmem.1
          · intro hne'
            exact ⟨(hiff hopen t').mpr hne', by simp [ht']⟩
      · intro hcontra
        rw [hopen] at hcontra
        exact absurd hcontra (by simp)

/-- `shutdownOp` preserves the bus invariant. -/
theorem inv_shutdownOp {s : BusState} (hinv : Inv s) : Inv (shutdownOp s) := by
  obtain ⟨-, hwf, -, -⟩ := hinv
  exact ⟨List.nodup_nil, hwf, by intro hcontra; simp [shutdownOp] at hcontra, fun _ => rfl⟩

/-- Every step preserves the bus invariant. -/
theorem inv_step (raises : Handler → Fields → Bool) {s : BusState} (hinv : Inv s)
    (cmd : Cmd) : Inv (step raises s cmd) := by
  cases cmd with
  | subscribe t h => exact inv_subscribeOp hinv t h
  | unsubscribe t h => exact inv_unsubscribeOp hinv t h
  | publish e =>
      show Inv (match publishOp s e with | .ok s' => s' | .error _ => s)
      unfold publishOp
      by_cases hc : s.closed
      · rw [if_pos hc]; exact hinv
      · rw [if_neg hc]
        by_cases hl : e.typeName ∈ s.listeners
        · rw [if_pos hl]; exact inv_of_same_core hinv rfl rfl rfl
        · rw [if_neg hl]; exact hinv
  | recv t p =>
      show Inv (if ¬ s.closed ∧ t ∈ s.listeners then
          { s with queues := setQueue s.queues t (queueOf s t ++ [p]) } else s)
      by_cases hcond : ¬ s.closed ∧ t ∈ s.listeners
      · rw [if_pos hcond]; exact inv_of_same_core hinv rfl rfl rfl
      · rw [if_neg hcond]; exact hinv
  | deliver t =>
      show Inv (deliverOp raises s t)
      by_cases hc : s.closed
      · unfold deliverOp; rw [if_pos hc]; exact hinv
      · have hopen : s.closed = false := by simpa using hc
        by_cases hl : t ∈ s.listeners
        · cases hq : queueOf s t with
          | nil => unfold deliverOp; rw [if_neg hc, if_pos hl, hq]; exact hinv
          | cons p rest =>
              rw [deliverOp_cons raises hopen hl hq]
              cases decode p with
              | error err => exact inv_of_same_core hinv (by rfl) (by rfl) (by rfl)
              | ok fields => exact inv_of_same_core hinv (by rfl) (by rfl) (by rfl)
        · unfold deliverOp; rw [if_neg hc, if_neg hl]; exact hinv
  | shutdown => exact inv_shutdownOp hinv

/-- A whole run preserves the bus invariant. -/
theorem inv_run (raises : Handler → Fields → Bool) {s : BusState} (hinv : Inv s)
    (cmds : List Cmd) : Inv (run raises s cmds) := by
  induction cmds generalizing s with
  | nil => exact hinv
  | cons c cmds ih => exact ih (inv_step raises hinv c)

/-- The freshly constructed bus satisfies the invariant. -/
theorem inv_initBus : Inv initBus := by
  refine ⟨List.nodup_nil, ⟨List.nodup_nil, by intro p hp; simp [initBus] at hp⟩, ?_, ?_⟩
  · intro _ t
    simp [initBus, handlersFor]
  · intro hcontra
    simp [initBus] at hcontra

/-! ### Dispatch fan-out lemmas -/

/-- Any invocation entry produced by one fan-out names a handler from the
snapshot, the dispatched type, and the dispatched fields. -/
theorem invoked_mem_dispatchTo {raises : Handler → Fields → Bool} {t : String} {flds : Fields}
    {hs : List Handler} {h0 : Handler} {t0 : String} {f0 : Fields}
    (hmem : LogEntry.invoked h0 t0 f0 ∈ dispatchTo raises t flds hs) :
    h0 ∈ hs ∧ t0 = t ∧ f0 = flds := by
  unfold dispatchTo at hmem
  obtain ⟨h', hh', hle⟩ := List.mem_flatMap.mp hmem
  by_cases hr : raises h' flds = true
  · rw [if_pos hr] at hle
    rcases List.mem_cons.mp hle with heq | hle'
    · obtain ⟨rfl, rfl, rfl⟩ := LogEntry.invoked.inj heq.symm
      exact ⟨hh', rfl, rfl⟩
    · rcases List.mem_singleton.mp hle' with heq
      exact absurd heq (by simp)
  · rw [if_neg hr] at hle
    rcases List.mem_singleton.mp hle with heq
    obtain ⟨rfl, rfl, rfl⟩ := LogEntry.invoked.inj heq
    exact ⟨hh', rfl, rfl⟩

/-- Every handler in the snapshot is invoked with the dispatched fields. -/
theorem mem_dispatchTo_invoked {raises : Handler → Fields → Bool} {t : String} {flds : Fields}
    {hs : List Handler} {h' : Handler} (hm : h' ∈ hs) :
    LogEntry.invoked h' t flds ∈ dispatchTo raises t flds hs := by
  unfold dispatchTo
  refine List.mem_flatMap.mpr ⟨h', hm, ?_⟩
  by_cases hr : raises h' flds = true <;> simp [hr]

/-- A raising handler leaves a logged `HandlerError` carrying the type name
and the handler identity. -/
theorem mem_dispatchTo_handlerError {raises : Handler → Fields → Bool} {t : String}
    {flds : Fields} {hs : List Handler} {h' : Handler} (hm : h' ∈ hs)
    (hr : raises h' flds = true) :
    LogEntry.handlerError t h' ∈ dispatchTo raises t flds hs := by
  unfold dispatchTo
  exact List.mem_flatMap.mpr ⟨h', hm, by simp [hr]⟩

/-- One fan-out invokes a handler as many times as it occurs in the
snapshot. -/
theorem count_invoked_dispatchTo (raises : Handler → Fields → Bool) (t : String)
    (flds : Fields) (hs : List Handler) (h : Handler) :
    (dispatchTo raises t flds hs).count (LogEntry.invoked h t flds) = hs.count h := by
  induction hs with
  | nil => rfl
  | cons h' hs ih =>
      unfold dispatchTo at ih ⊢
      rw [List.flatMap_cons, List.count_append, ih]
      by_cases hr : raises h' flds = true
      · rw [if_pos hr]
        by_cases hh : h' = h <;> simp [List.count_cons, hh, Nat.add_comm]
      · rw [if_neg hr]
        by_cases hh : h' = h <;> simp [List.count_cons, hh, Nat.add_comm]

/-! ### Step projection lemmas -/

/-- `subscribeOp` never touches the log. -/
theorem log_subscribeOp (s : BusState) (t : String) (h : Handler) :
    (subscribeOp s t h).log = s.log := by
  unfold subscribeOp; split <;> rfl

/-- `unsubscribeOp` never touches the log. -/
theorem log_unsubscribeOp (s : BusState) (t : String) (h : Handler) :
    (unsubscribeOp s t h).log = s.log := by
  unfold unsubscribeOp; split <;> rfl

/-- `subscribeOp` never touches the queues. -/
theorem queues_subscribeOp (s : BusState) (t : String) (h : Handler) :
    (subscribeOp s t h).queues = s.queues := by
  unfold subscribeOp; split <;> rfl

/-- `subscribeOp` never touches the closed flag. -/
theorem closed_subscribeOp (s : BusState) (t : String) (h : Handler) :
    (subscribeOp s t h).closed = s.closed := by
  unfold subscribeOp; split <;> rfl

/-- `unsubscribeOp` never touches the closed flag. -/
theorem closed_unsubscribeOp (s : BusState) (t : String) (h : Handler) :
    (unsubscribeOp s t h).closed = s.closed := by
  unfold unsubscribeOp; split <;> rfl

/-- A publish step never touches registry, listeners, log, or closed flag. -/
theorem step_publish_core (raises : Handler → Fields → Bool) (s : BusState) (e : Event) :
    (step raises s (.publish e)).registry = s.registry ∧
    (step raises s (.publish e)).listeners = s.listeners ∧
    (step raises s (.publish e)).log = s.log ∧
    (step raises s (.publish e)).closed = s.closed := by
  have hstep : step raises s (.publish e) =
      (match publishOp s e with | .ok s' => s' | .error _ => s) := rfl
  rw [hstep]
  unfold publishOp
  by_cases hc : s.closed = true
  · rw [if_pos hc]
    exact ⟨rfl, rfl, rfl, rfl⟩
  · rw [if_neg hc]
    by_cases hl : e.typeName ∈ s.listeners
    · rw [if_pos hl]; exact ⟨rfl, rfl, rfl, rfl⟩
    · rw [if_neg hl]; exact ⟨rfl, rfl, rfl, rfl⟩

/-- A receive step never touches registry, listeners, log, or closed flag. -/
theorem step_recv_core (raises : Handler → Fields → Bool) (s : BusState) (t : String)
    (p : Payload) :
    (step raises s (.recv t p)).registry = s.registry ∧
    (step raises s (.recv t p)).listeners = s.listeners ∧
    (step raises s (.recv t p)).log = s.log ∧
    (step raises s (.recv t p)).closed = s.closed := by
  have hstep : step raises s (.recv t p) =
      (if ¬ s.closed ∧ t ∈ s.listeners then
        { s with queues := setQueue s.queues t (queueOf s t ++ [p]) } else s) := rfl
  rw [hstep]
  by_cases hcond : ¬ s.closed ∧ t ∈ s.listeners
  · rw [if_pos hcond]; exact ⟨rfl, rfl, rfl, rfl⟩
  · rw [if_neg hcond]; exact ⟨rfl, rfl, rfl, rfl⟩

/-- A deliver step never touches registry, listeners, or closed flag. -/
theorem deliverOp_core (raises : Handler → Fields → Bool) (s : BusState) (t : String) :
    (deliverOp raises s t).registry = s.registry ∧
    (deliverOp raises s t).listeners = s.listeners ∧
    (deliverOp raises s t).closed = s.closed := by
  unfold deliverOp
  split
  · exact ⟨rfl, rfl, rfl⟩
  · split
    · split
      · exact ⟨rfl, rfl, rfl⟩
      · split <;> exact ⟨rfl, rfl, rfl⟩
    · exact ⟨rfl, rfl, rfl⟩

/-- Only `shutdown` can close the bus. -/
theorem closed_step (raises : Handler → Fields → Bool) {s : BusState} (hopen : s.closed = false)
    {cmd : Cmd} (hcmd : cmd ≠ .shutdown) : (step raises s cmd).closed = false := by
  cases cmd with
  | subscribe t h => rw [show (step raises s (.subscribe t h)) = subscribeOp s t h from rfl,
      closed_subscribeOp]; exact hopen
  | unsubscribe t h => rw [show (step raises s (.unsubscribe t h)) = unsubscribeOp s t h from rfl,
      closed_unsubscribeOp]; exact hopen
  | publish e => rw [(step_publish_core raises s e).2.2.2]; exact hopen
  | recv t p => rw [(step_recv_core raises s t p).2.2.2]; exact hopen
  | deliver t =>
      rw [show (step raises s (.deliver t)) = deliverOp raises s t from rfl,
        (deliverOp_core raises s t).2.2]
      exact hopen
  | shutdown => exact absurd rfl hcmd

/-- A run without `shutdown` keeps the bus open. -/
theorem closed_run (raises : Handler → Fields → Bool) {s : BusState} (hopen : s.closed = false)
    {cmds : List Cmd} (hc : ∀ c ∈ cmds, c ≠ .shutdown) : (run raises s cmds).closed = false := by
  induction cmds generalizing s with
  | nil => exact hopen
  | cons c cmds ih =>
      exact ih (closed_step raises hopen (hc c (by simp)))
        (fun c' hc' => hc c' (by simp [hc']))

/-! ### Subscription persistence along a run -/

/-- A registered handler stays registered across any step other than its own
unsubscription. -/
theorem mem_handlersFor_step (raises : Handler → Fields → Bool) {s : BusState} {t : String}
    {h : Handler} (hinv : Inv s) (hmem : h ∈ handlersFor s.registry t) {cmd : Cmd}
    (hcmd : cmd ≠ .unsubscribe t h) : h ∈ handlersFor (step raises s cmd).registry t := by
  obtain ⟨-, hwf, -, -⟩ := hinv
  cases cmd with
  | subscribe t' h' =>
      show h ∈ handlersFor (subscribeOp s t' h').registry t
      unfold subscribeOp
      by_cases hc : s.closed = true
      · rw [if_pos hc]; exact hmem
      · rw [if_neg hc]
        show h ∈ handlersFor (register s.registry t' h').1 t
        by_cases ht' : t = t'
        · subst ht'
          rw [handlersFor_register_self]
          by_cases hmem' : h' ∈ handlersFor s.registry t
          · rw [if_pos hmem']; exact hmem
          · rw [if_neg hmem']; exact List.mem_append_left _ hmem
        · rw [handlersFor_register_other ht']; exact hmem
  | unsubscribe t' h' =>
      show h ∈ handlersFor (unsubscribeOp s t' h').registry t
      unfold unsubscribeOp
      by_cases hc : s.closed = true
      · rw [if_pos hc]; exact hmem
      · rw [if_neg hc]
        show h ∈ handlersFor (unregister s.registry t' h').1 t
        by_cases ht' : t = t'
        · subst ht'
          have hne : h' ≠ h := by
            intro he
            exact hcmd (by rw [he])
          rw [handlersFor_unregister_self hwf]
          refine List.mem_filter.mpr ⟨hmem, ?_⟩
          simp only [bne_iff_ne, ne_eq]
          exact fun he => hne he.symm
        · rw [handlersFor_unregister_other hwf ht']; exact hmem
  | publish e => rw [(step_publish_core raises s e).1]; exact hmem
  | recv t' p => rw [(step_recv_core raises s t' p).1]; exact hmem
  | deliver t' =>
      rw [show (step raises s (.deliver t')) = deliverOp raises s t' from rfl,
        (deliverOp_core raises s t').1]
      exact hmem
  | shutdown => exact hmem

/-- A registered handler stays registered across any run that never
unsubscribes it. -/
theorem mem_handlersFor_run (raises : Handler → Fields → Bool) {s : BusState} {t : String}
    {h : Handler} (hinv : Inv s) (hmem : h ∈ handlersFor s.registry t) {cmds : List Cmd}
    (hc : ∀ c ∈ cmds, c ≠ .unsubscribe t h) :
    h ∈ handlersFor (run raises s cmds).registry t := by
  induction cmds generalizing s with
  | nil => exact hmem
  | cons c cmds ih =>
      exact ih (inv_step raises hinv c)
        (mem_handlersFor_step raises hinv hmem (hc c (by simp)))
        (fun c' hc' => hc c' (by simp [hc']))

/-- An unregistered handler stays unregistered across any step other than
its own subscription. -/
theorem not_mem_handlersFor_step (raises : Handler → Fields → Bool) {s : BusState} {t : String}
    {h : Handler} (hinv : Inv s) (habs : h ∉ handlersFor s.registry t) {cmd : Cmd}
    (hcmd : cmd ≠ .subscribe t h) : h ∉ handlersFor (step raises s cmd).registry t := by
  obtain ⟨-, hwf, -, -⟩ := hinv
  cases cmd with
  | subscribe t' h' =>
      show h ∉ handlersFor (subscribeOp s t' h').registry t
      unfold subscribeOp
      by_cases hc : s.closed = true
      · rw [if_pos hc]; exact habs
      · rw [if_neg hc]
        show h ∉ handlersFor (register s.registry t' h').1 t
        by_cases ht' : t = t'
        · subst ht'
          have hne : h' ≠ h := by
            intro he
            exact hcmd (by rw [he])
          rw [handlersFor_register_self]
          by_cases hmem' : h' ∈ handlersFor s.registry t
          · rw [if_pos hmem']; exact habs
          · rw [if_neg hmem']
            intro hcontra
            rcases List.mem_append.mp hcontra with hmem'' | hone
            · exact habs hmem''
            · exact hne (List.mem_singleton.mp hone).symm
        · rw [handlersFor_register_other ht']; exact habs
  | unsubscribe t' h' =>
      show h ∉ handlersFor (unsubscribeOp s t' h').registry t
      unfold unsubscribeOp
      by_cases hc : s.closed = true
      · rw [if_pos hc]; exact habs
      · rw [if_neg hc]
        show h ∉ handlersFor (unregister s.registry t' h').1 t
        by_cases ht' : t = t'
        · subst ht'
          rw [handlersFor_unregister_self hwf]
          intro hcontra
          exact habs (List.mem_filter.mp hcontra).1
        · rw [handlersFor_unregister_other hwf ht']; exact habs
  | publish e => rw [(step_publish_core raises s e).1]; exact habs
  | recv t' p => rw [(step_recv_core raises s t' p).1]; exact habs
  | deliver t' =>
      rw [show (step raises s (.deliver t')) = deliverOp raises s t' from rfl,
        (deliverOp_core raises s t').1]
      exact habs
  | shutdown => exact habs

/-- One step adds no invocation entry for a handler that is not registered
for the type. -/
theorem step_log_no_invoked (raises : Handler → Fields → Bool) {s : BusState} {t : String}
    {h : Handler} (habs : h ∉ handlersFor s.registry t) (cmd : Cmd) :
    ∃ ext, (step raises s cmd).log = s.log ++ ext ∧
      ∀ f : Fields, LogEntry.invoked h t f ∉ ext := by
  cases cmd with
  | subscribe t' h' =>
      exact ⟨[], by rw [List.append_nil]; exact log_subscribeOp s t' h', by simp⟩
  | unsubscribe t' h' =>
      exact ⟨[], by rw [List.append_nil]; exact log_unsubscribeOp s t' h', by simp⟩
  | publish e =>
      exact ⟨[], by rw [List.append_nil]; exact (step_publish_core raises s e).2.2.1, by simp⟩
  | recv t' p =>
      exact ⟨[], by rw [List.append_nil]; exact (step_recv_core raises s t' p).2.2.1, by simp⟩
  | shutdown => exact ⟨[], by rw [List.append_nil]; rfl, by simp⟩
  | deliver t' =>
      show ∃ ext, (deliverOp raises s t').log = s.log ++ ext ∧ _
      by_cases hc : s.closed = true
      · exact ⟨[], by rw [List.append_nil]; unfold deliverOp; rw [if_pos hc], by simp⟩
      · have hopen : s.closed = false := by simpa using hc
        by_cases hl : t' ∈ s.listeners
        · cases hq : queueOf s t' with
          | nil =>
              exact ⟨[], by rw [List.append_nil]; unfold deliverOp
                            rw [if_neg hc, if_pos hl, hq], by simp⟩
          | cons p rest =>
              rw [deliverOp_cons raises hopen hl hq]
              cases decode p with
              | error err =>
                  exact ⟨[.decodeFailed t'], rfl, by simp⟩
              | ok flds =>
                  refine ⟨dispatchTo raises t' flds (handlersFor s.registry t'), rfl, ?_⟩
                  intro f hcontra
                  obtain ⟨hmem, ht, -⟩ := invoked_mem_dispatchTo hcontra
                  subst ht
                  exact habs hmem
        · exact ⟨[], by rw [List.append_nil]; unfold deliverOp
                        rw [if_neg hc, if_neg hl], by simp⟩

/-- A run that never subscribes a (type, handler) pair adds no invocation
entry for it. -/
theorem run_log_no_invoked (raises : Handler → Fields → Bool) {s : BusState} {t : String}
    {h : Handler} (hinv : Inv s) (habs : h ∉ handlersFor s.registry t) {cmds : List Cmd}
    (hc : ∀ c ∈ cmds, c ≠ .subscribe t h) :
    ∃ ext, (run raises s cmds).log = s.log ++ ext ∧
      ∀ f : Fields, LogEntry.invoked h t f ∉ ext := by
  induction cmds generalizing s with
  | nil => exact ⟨[], by simp [run], by simp⟩
  | cons c cmds ih =>
      obtain ⟨e1, he1, hn1⟩ := step_log_no_invoked raises habs c
      obtain ⟨e2, he2, hn2⟩ := ih (inv_step raises hinv c)
        (not_mem_handlersFor_step raises hinv habs (hc c (by simp)))
        (fun c' hc' => hc c' (by simp [hc']))
      refine ⟨e1 ++ e2, ?_, ?_⟩
      · show (run raises (step raises s c) cmds).log = _
        rw [he2, he1, List.append_assoc]
      · intro f hcontra
        rcases List.mem_append.mp hcontra with hm | hm
        · exact hn1 f hm
        · exact hn2 f hm

/-- Publishing an event to an open bus with an active listener for its type
and an empty channel, then letting the listener run once, appends exactly
the fan-out of the decoded event to the log and drains the channel. -/
theorem publish_deliver_log (raises : Handler → Fields → Bool) {s : BusState} {e : Event}
    (hopen : s.closed = false) (hlis : e.typeName ∈ s.listeners)
    (hq : queueOf s e.typeName = []) :
    (run raises s [.publish e, .deliver e.typeName]).log =
      s.log ++ dispatchTo raises e.typeName e.fields (handlersFor s.registry e.typeName) ∧
    queueOf (run raises s [.publish e, .deliver e.typeName]) e.typeName = [] := by
  have hs1 : step raises s (.publish e) =
      { s with queues := setQueue s.queues e.typeName (queueOf s e.typeName ++ [encode e]) } :=
    step_publish_eq raises hopen hlis
  have hrun : run raises s [.publish e, .deliver e.typeName] =
      deliverOp raises (step raises s (.publish e)) e.typeName := rfl
  rw [hrun, hs1]
  have hq1 : queueOf { s with
      queues := setQueue s.queues e.typeName (queueOf s e.typeName ++ [encode e]) } e.typeName =
      [encode e] := by
    show queueLookup (setQueue s.queues e.typeName (queueOf s e.typeName ++ [encode e]))
      e.typeName = [encode e]
    rw [queueLookup_setQueue_self, hq]
    rfl
  rw [deliverOp_cons raises (by exact hopen) (by exact hlis) hq1, decode_encode]
  constructor
  · rfl
  · show queueLookup (setQueue _ e.typeName []) e.typeName = []
    rw [queueLookup_setQueue_self]

/-- Handler snapshots of a well-formed registry never repeat a handler. -/
theorem handlersFor_nodup {r : Registry} (t : String) (hwf : RegWF r) :
    (handlersFor r t).Nodup := by
  unfold handlersFor
  cases hfind : r.find? (fun p => p.1 == t) with
  | none => exact List.nodup_nil
  | some p => exact (hwf.2 p (List.mem_of_find?_eq_some hfind)).2

/-- Registering the same handler again right after registering it changes
nothing and reports no new subscription. -/
theorem register_register (r : Registry) (t : String) (h : Handler) :
    register (register r t h).1 t h = ((register r t h).1, false) := by
  cases hfind : r.find? (fun p => p.1 == t) with
  | none =>
      have hfst : (register r t h).1 = (t, [h]) :: r := by
        unfold register
        rw [hfind]
      rw [hfst]
      unfold register
      rw [List.find?_cons_of_pos _ (by simp)]
      refine Prod.ext ?_ rfl
      simp only [List.map_cons]
      have hhead : (if (((t, [h]) : String × List Handler).1 == t) = true then
          (((t, [h]) : String × List Handler).1,
            if h ∈ ((t, [h]) : String × List Handler).2 then ((t, [h]) : String × List Handler).2
            else ((t, [h]) : String × List Handler).2 ++ [h])
          else ((t, [h]) : String × List Handler)) = ((t, [h]) : String × List Handler) := by
        simp
      rw [hhead]
      congr 1
      conv_rhs => rw [← List.map_id r]
      apply List.map_congr_left
      intro q hq
      have hqt := List.find?_eq_none.mp hfind q hq
      simp only [Bool.not_eq_true] at hqt
      rw [if_neg (by simp [hqt])]
      rfl
  | some p =>
      have hfst : (register r t h).1 =
          r.map (fun q => if q.1 == t then (q.1, if h ∈ q.2 then q.2 else q.2 ++ [h]) else q) := by
        unfold register
        rw [hfind]
      rw [hfst]
      unfold register
      rw [List.find?_map]
      have hpred : ((fun q => q.1 == t) ∘
          (fun q => if q.1 == t then (q.1, if h ∈ q.2 then q.2 else q.2 ++ [h]) else q)) =
          (fun q : String × List Handler => q.1 == t) := by
        funext q
        by_cases hq : q.1 = t <;> simp [hq]
      rw [hpred, hfind]
      refine Prod.ext ?_ rfl
      simp only
      rw [List.map_map]
      apply List.map_congr_left
      intro q hq
      by_cases hqt : q.1 = t
      · have hin : (if (q.1 == t) = true then (q.1, if h ∈ q.2 then q.2 else q.2 ++ [h]) else q) =
            (q.1, if h ∈ q.2 then q.2 else q.2 ++ [h]) := if_pos (by simp [hqt])
        have hS : h ∈ (if h ∈ q.2 then q.2 else q.2 ++ [h]) := by
          by_cases hm : h ∈ q.2
          · rw [if_pos hm]; exact hm
          · rw [if_neg hm]; exact List.mem_append_right _ (by simp)
        simp only [Function.comp_apply, hin]
        rw [if_pos (by simp [hqt]), if_pos hS]
      · have hout : (if (q.1 == t) = true then (q.1, if h ∈ q.2 then q.2 else q.2 ++ [h]) else q) =
            q := if_neg (by simp [hqt])
        simp only [Function.comp_apply, hout]

/-! ### The claims -/

/-- C8: The Codec round-trips every event whose field values are of the
supported kinds (strings, numbers, booleans, nested mappings, sequences):
decoding the encoded event yields a field mapping equal to the event's
field name/value pairs. -/
theorem claim_codec_roundtrip (e : Event) : decode (encode e) = .ok e.fields :=
  decode_encode e

/-- C2: After `shutdown()` returns, no listener of the bus remains (the
listener set is empty and a delivery step can do no further work), and a
second `shutdown()` on the same bus is a no-op that leaves the state
unchanged rather than failing. -/
theorem claim_shutdown_quiescent (raises : Handler → Fields → Bool) (s : BusState)
    (t : String) :
    (shutdownOp s).listeners = [] ∧
    deliverOp raises (shutdownOp s) t = shutdownOp s ∧
    shutdownOp (shutdownOp s) = shutdownOp s := by
  refine ⟨rfl, ?_, rfl⟩
  unfold deliverOp
  rw [if_pos (show (shutdownOp s).closed = true from rfl)]

/-- C3: In every state reachable by a run from the fresh bus, the listener
list holds each event-type name at most once (at most one listener per
(bus, type)), and — while the bus is open — a listener for a name exists
exactly when the registry's handler set for that name is non-empty, while a
shut-down bus has no listeners at all. -/
theorem claim_listener_invariant (raises : Handler → Fields → Bool) (cmds : List Cmd) :
    Inv (run raises initBus cmds) ∧
    ∀ t, (run raises initBus cmds).listeners.count t ≤ 1 := by
  have hinv := inv_run raises inv_initBus cmds
  exact ⟨hinv, fun t => List.nodup_iff_count_le_one.mp hinv.1 t⟩

/-- C9: `unregister` removes the handler from the name's set, is a no-op on
the registry when the handler is absent, and returns `false` exactly when
the name's handler set is empty after the call. -/
theorem claim_unregister_spec (r : Registry) (t : String) (h : Handler) (hwf : RegWF r) :
    h ∉ handlersFor (unregister r t h).1 t ∧
    (h ∉ handlersFor r t → (unregister r t h).1 = r) ∧
    ((unregister r t h).2 = false ↔ handlersFor (unregister r t h).1 t = []) := by
  refine ⟨?_, fun habs => unregister_absent hwf habs, ?_⟩
  · rw [handlersFor_unregister_self hwf]
    intro hmem
    have := (List.mem_filter.mp hmem).2
    simp at this
  · constructor
    · intro hfalse
      by_contra hcon
      have := unregister_snd_iff.mpr hcon
      rw [hfalse] at this
      exact absurd this (by simp)
    · intro hnil
      cases hb : (unregister r t h).2
      · rfl
      · exact absurd hnil (by simpa using unregister_snd_iff.mp hb)

/-- Witness for C9 at a concrete registry: `"T"` holds handlers 1 and 2;
unregistering 1 removes only it and reports remaining handlers. -/
theorem claim_unregister_spec_witness :
    RegWF [("T", [1, 2])] ∧
    (1 ∉ handlersFor (unregister [("T", [1, 2])] "T" 1).1 "T" ∧
      (1 ∉ handlersFor [("T", [1, 2])] "T" → (unregister [("T", [1, 2])] "T" 1).1 =
        [("T", [1, 2])]) ∧
      ((unregister [("T", [1, 2])] "T" 1).2 = false ↔
        handlersFor (unregister [("T", [1, 2])] "T" 1).1 "T" = [])) :=
  ⟨⟨by decide, by decide⟩, claim_unregister_spec [("T", [1, 2])] "T" 1 ⟨by decide, by decide⟩⟩

/-- C4: Subscribing the exact same handler to the same type twice leaves the
whole bus state exactly as subscribing it once, and a dispatched message
then invokes that handler exactly once, not twice. -/
theorem claim_subscribe_idempotent (raises : Handler → Fields → Bool) (flds : Fields)
    (s : BusState) (t : String) (h : Handler) (hinv : Inv s) :
    subscribeOp (subscribeOp s t h) t h = subscribeOp s t h ∧
    (s.closed = false →
      (dispatchTo raises t flds (handlersFor (subscribeOp s t h).registry t)).count
        (LogEntry.invoked h t flds) = 1) := by
  constructor
  · by_cases hc : s.closed = true
    · have hcl : subscribeOp s t h = s := by unfold subscribeOp; rw [if_pos hc]
      rw [hcl, hcl]
    · have hsub : subscribeOp s t h =
          { s with
            registry := (register s.registry t h).1
            listeners := if (register s.registry t h).2 then t :: s.listeners
              else s.listeners } := by
        unfold subscribeOp
        rw [if_neg hc]
      rw [hsub]
      unfold subscribeOp
      rw [if_neg (show ¬({ s with
            registry := (register s.registry t h).1
            listeners := if (register s.registry t h).2 then t :: s.listeners
              else s.listeners } : BusState).closed = true from hc)]
      show ({ s with
          registry := (register (register s.registry t h).1 t h).1
          listeners := if (register (register s.registry t h).1 t h).2 then
              t :: (if (register s.registry t h).2 then t :: s.listeners else s.listeners)
            else (if (register s.registry t h).2 then t :: s.listeners else s.listeners) }
          : BusState) = _
      rw [register_register]
      simp
  · intro hopen
    have hwf' : RegWF (subscribeOp s t h).registry := (inv_subscribeOp hinv t h).2.1
    have hmem : h ∈ handlersFor (subscribeOp s t h).registry t := by
      unfold subscribeOp
      rw [if_neg (by simp [hopen])]
      show h ∈ handlersFor (register s.registry t h).1 t
      rw [handlersFor_register_self]
      by_cases hm : h ∈ handlersFor s.registry t
      · rw [if_pos hm]; exact hm
      · rw [if_neg hm]; exact List.mem_append_right _ (by simp)
    rw [count_invoked_dispatchTo]
    exact List.count_eq_one_of_mem (handlersFor_nodup t hwf') hmem

/-- Witness for C4 on a fresh bus, type `"OrderPlaced"`, handler 7: double
subscription collapses to one, and one fan-out invokes handler 7 once. -/
theorem claim_subscribe_idempotent_witness :
    subscribeOp (subscribeOp initBus "OrderPlaced" 7) "OrderPlaced" 7 =
      subscribeOp initBus "OrderPlaced" 7 ∧
    (initBus.closed = false →
      (dispatchTo (fun _ _ => false) "OrderPlaced" []
        (handlersFor (subscribeOp initBus "OrderPlaced" 7).registry "OrderPlaced")).count
        (LogEntry.invoked 7 "OrderPlaced" []) = 1) :=
  claim_subscribe_idempotent (fun _ _ => false) [] initBus "OrderPlaced" 7 inv_initBus

/-- Modelled from the spec: the public `subscribe` entry point's two calling
conventions (§9 "Decorator-based subscription"; the examples use both
`@subscribe("T")` on a function definition and `subscribe("T", handler)`).
Called without a handler it yields a decorator; applying the decorator to a
callable registers it and returns the callable itself. The
`eve.adapters.events.subscribe` source is absent from the snapshot. -/
def subscribeCall (s : BusState) (t : String) :
    Option Handler → BusState ⊕ (Handler → BusState × Handler)
  | some h => Sum.inl (subscribeOp s t h)
  | none => Sum.inr (fun f => (subscribeOp s t f, f))

/-- C10: `subscribe(T)` acts as a decorator — applying it to a callable
registers the callable for `T` and hands the callable back unchanged — and
`subscribe(T, handler)` registers directly; both conventions produce the
same registration. -/
theorem claim_subscribe_conventions (s : BusState) (t : String) (f : Handler)
    (hopen : s.closed = false) :
    ∃ deco, subscribeCall s t none = Sum.inr deco ∧
      (deco f).1 = subscribeOp s t f ∧
      (deco f).2 = f ∧
      subscribeCall s t (some f) = Sum.inl (deco f).1 ∧
      f ∈ handlersFor ((deco f).1.registry) t := by
  refine ⟨fun g => (subscribeOp s t g, g), rfl, rfl, rfl, rfl, ?_⟩
  show f ∈ handlersFor (subscribeOp s t f).registry t
  unfold subscribeOp
  rw [if_neg (by simp [hopen])]
  show f ∈ handlersFor (register s.registry t f).1 t
  rw [handlersFor_register_self]
  by_cases hm : f ∈ handlersFor s.registry t
  · rw [if_pos hm]; exact hm
  · rw [if_neg hm]; exact List.mem_append_right _ (by simp)

/-- Witness for C10 on a fresh bus, type `"UserCreated"`, callable 3. -/
theorem claim_subscribe_conventions_witness :
    ∃ deco, subscribeCall initBus "UserCreated" none = Sum.inr deco ∧
      (deco 3).1 = subscribeOp initBus "UserCreated" 3 ∧
      (deco 3).2 = 3 ∧
      subscribeCall initBus "UserCreated" (some 3) = Sum.inl (deco 3).1 ∧
      3 ∈ handlersFor ((deco 3).1.registry) "UserCreated" :=
  claim_subscribe_conventions initBus "UserCreated" 3 rfl

/-- C7: A malformed payload at the head of a subscribed channel makes decode
fail with a `DecodeError`; the failure is logged as the only new entry (so
no handler is invoked for it), the message is dropped from the queue, the
listener stays active, and the next pending message is decoded and
dispatched normally. -/
theorem claim_decode_error_isolated (raises : Handler → Fields → Bool) (s : BusState)
    (t : String) (pbad p2 : Payload) (rest : List Payload) (f2 : Fields) (err : DecodeError)
    (hopen : s.closed = false) (hlis : t ∈ s.listeners)
    (hq : queueOf s t = pbad :: p2 :: rest)
    (hbad : decode pbad = .error err) (hd2 : decode p2 = .ok f2) :
    (deliverOp raises s t).log = s.log ++ [.decodeFailed t] ∧
    queueOf (deliverOp raises s t) t = p2 :: rest ∧
    t ∈ (deliverOp raises s t).listeners ∧
    (deliverOp raises (deliverOp raises s t) t).log =
      s.log ++ [.decodeFailed t] ++ dispatchTo raises t f2 (handlersFor s.registry t) := by
  have hs1 : deliverOp raises s t =
      { s with
          queues := setQueue s.queues t (p2 :: rest)
          log := s.log ++ [.decodeFailed t] } := by
    rw [deliverOp_cons raises hopen hlis hq, hbad]
  have hq1 : queueOf { s with
      queues := setQueue s.queues t (p2 :: rest)
      log := s.log ++ [.decodeFailed t] } t = p2 :: rest := by
    show queueLookup (setQueue s.queues t (p2 :: rest)) t = p2 :: rest
    exact queueLookup_setQueue_self _ _ _
  refine ⟨by rw [hs1], ?_, ?_, ?_⟩
  · rw [hs1]
    exact hq1
  · rw [hs1]
    exact hlis
  · rw [hs1]
    rw [deliverOp_cons raises (by exact hopen) (by exact hlis) hq1, hd2]

/-- Witness for C7: a fresh bus subscribed on `"T"` whose channel received a
stray closing token and then a well-formed payload. -/
theorem claim_decode_error_isolated_witness :
    (deliverOp (fun _ _ => false) (run (fun _ _ => false) initBus
        [.subscribe "T" 4, .recv "T" [Tok.rseq],
         .recv "T" (encode ⟨"T", [("k", Value.num 1)]⟩)]) "T").log =
      (run (fun _ _ => false) initBus
        [.subscribe "T" 4, .recv "T" [Tok.rseq],
         .recv "T" (encode ⟨"T", [("k", Value.num 1)]⟩)]).log ++ [.decodeFailed "T"] ∧
    queueOf (deliverOp (fun _ _ => false) (run (fun _ _ => false) initBus
        [.subscribe "T" 4, .recv "T" [Tok.rseq],
         .recv "T" (encode ⟨"T", [("k", Value.num 1)]⟩)]) "T") "T" =
      [encode ⟨"T", [("k", Value.num 1)]⟩] ∧
    "T" ∈ (deliverOp (fun _ _ => false) (run (fun _ _ => false) initBus
        [.subscribe "T" 4, .recv "T" [Tok.rseq],
         .recv "T" (encode ⟨"T", [("k", Value.num 1)]⟩)]) "T").listeners ∧
    (deliverOp (fun _ _ => false) (deliverOp (fun _ _ => false)
        (run (fun _ _ => false) initBus
          [.subscribe "T" 4, .recv "T" [Tok.rseq],
           .recv "T" (encode ⟨"T", [("k", Value.num 1)]⟩)]) "T") "T").log =
      (run (fun _ _ => false) initBus
        [.subscribe "T" 4, .recv "T" [Tok.rseq],
         .recv "T" (encode ⟨"T", [("k", Value.num 1)]⟩)]).log ++ [.decodeFailed "T"] ++
        dispatchTo (fun _ _ => false) "T" [("k", Value.num 1)]
          (handlersFor (run (fun _ _ => false) initBus
            [.subscribe "T" 4, .recv "T" [Tok.rseq],
             .recv "T" (encode ⟨"T", [("k", Value.num 1)]⟩)]).registry "T") :=
  claim_decode_error_isolated (fun _ _ => false) _ "T" [Tok.rseq]
    (encode ⟨"T", [("k", Value.num 1)]⟩) [] [("k", Value.num 1)] .malformed
    (by decide) (by decide) (by decide) (by decide) (by decide)

/-- C6: A handler that raises on message 1 of type `t` is caught and logged
per handler: message 1 is still dispatched to every handler of the
snapshot, message 2 is still delivered to the previously raising handler,
and the listener for `t` stays active. -/
theorem claim_handler_errors_isolated (raises : Handler → Fields → Bool) (s : BusState)
    (t : String) (h1 h2 : Handler) (p1 p2 : Payload) (rest : List Payload)
    (f1 f2 : Fields)
    (hopen : s.closed = false) (hlis : t ∈ s.listeners)
    (hq : queueOf s t = p1 :: p2 :: rest)
    (hd1 : decode p1 = .ok f1) (hd2 : decode p2 = .ok f2)
    (hr1 : raises h1 f1 = true)
    (hm1 : h1 ∈ handlersFor s.registry t) (hm2 : h2 ∈ handlersFor s.registry t) :
    (deliverOp raises s t).log =
      s.log ++ dispatchTo raises t f1 (handlersFor s.registry t) ∧
    LogEntry.handlerError t h1 ∈ dispatchTo raises t f1 (handlersFor s.registry t) ∧
    LogEntry.invoked h1 t f1 ∈ dispatchTo raises t f1 (handlersFor s.registry t) ∧
    LogEntry.invoked h2 t f1 ∈ dispatchTo raises t f1 (handlersFor s.registry t) ∧
    t ∈ (deliverOp raises s t).listeners ∧
    (deliverOp raises (deliverOp raises s t) t).log =
      s.log ++ dispatchTo raises t f1 (handlersFor s.registry t)
            ++ dispatchTo raises t f2 (handlersFor s.registry t) ∧
    LogEntry.invoked h1 t f2 ∈ dispatchTo raises t f2 (handlersFor s.registry t) := by
  have hs1 : deliverOp raises s t =
      { s with
          queues := setQueue s.queues t (p2 :: rest)
          log := s.log ++ dispatchTo raises t f1 (handlersFor s.registry t) } := by
    rw [deliverOp_cons raises hopen hlis hq, hd1]
  have hq1 : queueOf { s with
      queues := setQueue s.queues t (p2 :: rest)
      log := s.log ++ dispatchTo raises t f1 (handlersFor s.registry t) } t = p2 :: rest := by
    show queueLookup (setQueue s.queues t (p2 :: rest)) t = p2 :: rest
    exact queueLookup_setQueue_self _ _ _
  refine ⟨by rw [hs1], mem_dispatchTo_handlerError hm1 hr1,
    mem_dispatchTo_invoked hm1, mem_dispatchTo_invoked hm2, by rw [hs1]; exact hlis, ?_,
    mem_dispatchTo_invoked hm1⟩
  rw [hs1]
  rw [deliverOp_cons raises (by exact hopen) (by exact hlis) hq1, hd2]

/-- Handler behaviour for the C6 witness: handler 1 raises on every message. -/
def raisesW : Handler → Fields → Bool := fun h _ => h == 1

/-- Bus for the C6 witness: handlers 1 and 2 subscribed to `"T"`, two
well-formed messages pending. -/
def busW : BusState :=
  run raisesW initBus
    [.subscribe "T" 1, .subscribe "T" 2,
     .recv "T" (encode ⟨"T", [("a", Value.num 1)]⟩),
     .recv "T" (encode ⟨"T", [("b", Value.num 2)]⟩)]

/-- Witness for C6 on `busW`: handler 1 raises on message 1, is logged, does
not stop handler 2 on message 1 nor its own delivery of message 2, and the
listener survives. -/
theorem claim_handler_errors_isolated_witness :
    (deliverOp raisesW busW "T").log =
      busW.log ++ dispatchTo raisesW "T" [("a", Value.num 1)] (handlersFor busW.registry "T") ∧
    LogEntry.handlerError "T" 1 ∈
      dispatchTo raisesW "T" [("a", Value.num 1)] (handlersFor busW.registry "T") ∧
    LogEntry.invoked 1 "T" [("a", Value.num 1)] ∈
      dispatchTo raisesW "T" [("a", Value.num 1)] (handlersFor busW.registry "T") ∧
    LogEntry.invoked 2 "T" [("a", Value.num 1)] ∈
      dispatchTo raisesW "T" [("a", Value.num 1)] (handlersFor busW.registry "T") ∧
    "T" ∈ (deliverOp raisesW busW "T").listeners ∧
    (deliverOp raisesW (deliverOp raisesW busW "T") "T").log =
      busW.log ++ dispatchTo raisesW "T" [("a", Value.num 1)] (handlersFor busW.registry "T")
            ++ dispatchTo raisesW "T" [("b", Value.num 2)] (handlersFor busW.registry "T") ∧
    LogEntry.invoked 1 "T" [("b", Value.num 2)] ∈
      dispatchTo raisesW "T" [("b", Value.num 2)] (handlersFor busW.registry "T") :=
  claim_handler_errors_isolated raisesW busW "T" 1 2
    (encode ⟨"T", [("a", Value.num 1)]⟩) (encode ⟨"T", [("b", Value.num 2)]⟩) []
    [("a", Value.num 1)] [("b", Value.num 2)]
    (by decide) (by decide) (by decide) (by decide) (by decide) (by decide)
    (by decide) (by decide)

/-- C5: After `unsubscribe(t, h)` on an open bus, `h` is gone from the
registry, no invocation of `h` for type `t` is ever appended by any later
run that does not re-subscribe it, while a different handler `h'` that was
subscribed stays subscribed and is still invoked for a `t` event published
afterwards. -/
theorem claim_unsubscribe_stops (raises : Handler → Fields → Bool) (s : BusState)
    (t : String) (h h' : Handler) (cmds : List Cmd) (e : Event)
    (hinv : Inv s) (hopen : s.closed = false) (hne : h' ≠ h)
    (hcmds : ∀ c ∈ cmds, c ≠ .subscribe t h) :
    h ∉ handlersFor (unsubscribeOp s t h).registry t ∧
    (∃ ext, (run raises (unsubscribeOp s t h) cmds).log = (unsubscribeOp s t h).log ++ ext ∧
      ∀ f : Fields, LogEntry.invoked h t f ∉ ext) ∧
    (h' ∈ handlersFor s.registry t → h' ∈ handlersFor (unsubscribeOp s t h).registry t) ∧
    (e.typeName = t → h' ∈ handlersFor s.registry t → queueOf s t = [] →
      LogEntry.invoked h' t e.fields ∈
        (run raises (unsubscribeOp s t h) [.publish e, .deliver t]).log) := by
  have hwf : RegWF s.registry := hinv.2.1
  have hiff := hinv.2.2.1
  have habs : h ∉ handlersFor (unsubscribeOp s t h).registry t := by
    unfold unsubscribeOp
    rw [if_neg (by simp [hopen])]
    show h ∉ handlersFor (unregister s.registry t h).1 t
    rw [handlersFor_unregister_self hwf]
    intro hmem
    have := (List.mem_filter.mp hmem).2
    simp at this
  have hkeep : h' ∈ handlersFor s.registry t →
      h' ∈ handlersFor (unsubscribeOp s t h).registry t := by
    intro hm
    unfold unsubscribeOp
    rw [if_neg (by simp [hopen])]
    show h' ∈ handlersFor (unregister s.registry t h).1 t
    rw [handlersFor_unregister_self hwf]
    refine List.mem_filter.mpr ⟨hm, ?_⟩
    simp only [bne_iff_ne, ne_eq]
    exact hne
  refine ⟨habs, run_log_no_invoked raises (inv_unsubscribeOp hinv t h) habs hcmds,
    hkeep, ?_⟩
  intro hT hm hq0
  subst hT
  have hm1 : h' ∈ handlersFor (unsubscribeOp s e.typeName h).registry e.typeName := hkeep hm
  have hstill : (unregister s.registry e.typeName h).2 = true := by
    apply unregister_snd_iff.mpr
    intro hemp
    rw [show (unsubscribeOp s e.typeName h).registry =
        (unregister s.registry e.typeName h).1 from by
      unfold unsubscribeOp; rw [if_neg (by simp [hopen])]] at hm1
    rw [hemp] at hm1
    exact List.not_mem_nil h' hm1
  have hs1 : unsubscribeOp s e.typeName h =
      { s with registry := (unregister s.registry e.typeName h).1 } := by
    unfold unsubscribeOp
    rw [if_neg (by simp [hopen])]
    simp only [hstill, if_true]
  have hopen1 : (unsubscribeOp s e.typeName h).closed = false := by
    rw [closed_unsubscribeOp]; exact hopen
  have hlis1 : e.typeName ∈ (unsubscribeOp s e.typeName h).listeners := by
    rw [hs1]
    show e.typeName ∈ s.listeners
    apply (hiff hopen e.typeName).mpr
    intro hemp
    rw [hemp] at hm
    exact List.not_mem_nil h' hm
  have hq1 : queueOf (unsubscribeOp s e.typeName h) e.typeName = [] := by
    rw [hs1]
    exact hq0
  obtain ⟨hlog, -⟩ := publish_deliver_log raises hopen1 hlis1 hq1
  rw [hlog]
  apply List.mem_append_right
  exact mem_dispatchTo_invoked hm1

/-- Bus for the C5 witness: handlers 1 and 2 subscribed to `"T"`, nothing
pending. -/
def busW5 : BusState :=
  run (fun _ _ => false) initBus [.subscribe "T" 1, .subscribe "T" 2]

/-- Event for the C5 and C1 witnesses. -/
def eventW : Event := ⟨"T", [("x", Value.bool true)]⟩

/-- Witness for C5 on `busW5`: unsubscribing handler 1 removes it, later
publish/deliver commands never invoke it again, and handler 2 still gets a
`"T"` event published afterwards. -/
theorem claim_unsubscribe_stops_witness :
    1 ∉ handlersFor (unsubscribeOp busW5 "T" 1).registry "T" ∧
    (∃ ext, (run (fun _ _ => false) (unsubscribeOp busW5 "T" 1)
        [.publish eventW, .deliver "T"]).log = (unsubscribeOp busW5 "T" 1).log ++ ext ∧
      ∀ f : Fields, LogEntry.invoked 1 "T" f ∉ ext) ∧
    (2 ∈ handlersFor busW5.registry "T" →
      2 ∈ handlersFor (unsubscribeOp busW5 "T" 1).registry "T") ∧
    (eventW.typeName = "T" → 2 ∈ handlersFor busW5.registry "T" → queueOf busW5 "T" = [] →
      LogEntry.invoked 2 "T" eventW.fields ∈
        (run (fun _ _ => false) (unsubscribeOp busW5 "T" 1)
          [.publish eventW, .deliver "T"]).log) :=
  claim_unsubscribe_stops (fun _ _ => false) busW5 "T" 1 2
    [.publish eventW, .deliver "T"] eventW
    (inv_run (fun _ _ => false) inv_initBus [.subscribe "T" 1, .subscribe "T" 2])
    (by decide) (by decide) (by decide)

/-- C1: On an open bus, after `subscribe(T, h)` and any interval of activity
that neither unsubscribes `(T, h)` nor shuts the bus down and leaves `T`'s
channel drained, publishing a `T` event and letting the listener run
appends exactly one invocation of `h` carrying the event's decoded field
mapping, and consumes the message so it can never be delivered again. -/
theorem claim_subscribe_publish_delivers (raises : Handler → Fields → Bool) (s0 : BusState)
    (T : String) (h : Handler) (mid : List Cmd) (e : Event)
    (hinv : Inv s0) (hopen : s0.closed = false) (hT : e.typeName = T)
    (hmid : ∀ c ∈ mid, c ≠ .unsubscribe T h ∧ c ≠ .shutdown)
    (hqe : queueOf (run raises (subscribeOp s0 T h) mid) T = []) :
    ∃ ext,
      (run raises (run raises (subscribeOp s0 T h) mid) [.publish e, .deliver T]).log =
        (run raises (subscribeOp s0 T h) mid).log ++ ext ∧
      ext.count (LogEntry.invoked h T e.fields) = 1 ∧
      queueOf (run raises (run raises (subscribeOp s0 T h) mid)
        [.publish e, .deliver T]) T = [] := by
  subst hT
  have hinv1 : Inv (subscribeOp s0 e.typeName h) := inv_subscribeOp hinv e.typeName h
  have hmem1 : h ∈ handlersFor (subscribeOp s0 e.typeName h).registry e.typeName := by
    unfold subscribeOp
    rw [if_neg (by simp [hopen])]
    show h ∈ handlersFor (register s0.registry e.typeName h).1 e.typeName
    rw [handlersFor_register_self]
    by_cases hm : h ∈ handlersFor s0.registry e.typeName
    · rw [if_pos hm]; exact hm
    · rw [if_neg hm]; exact List.mem_append_right _ (by simp)
  have hopen1 : (subscribeOp s0 e.typeName h).closed = false := by
    rw [closed_subscribeOp]; exact hopen
  have hinv2 : Inv (run raises (subscribeOp s0 e.typeName h) mid) := inv_run raises hinv1 mid
  have hmem2 : h ∈ handlersFor
      (run raises (subscribeOp s0 e.typeName h) mid).registry e.typeName :=
    mem_handlersFor_run raises hinv1 hmem1 (fun c hc => (hmid c hc).1)
  have hopen2 : (run raises (subscribeOp s0 e.typeName h) mid).closed = false :=
    closed_run raises hopen1 (fun c hc => (hmid c hc).2)
  have hlis2 : e.typeName ∈ (run raises (subscribeOp s0 e.typeName h) mid).listeners := by
    apply (hinv2.2.2.1 hopen2 e.typeName).mpr
    intro hemp
    rw [hemp] at hmem2
    exact List.not_mem_nil h hmem2
  obtain ⟨hlog, hqueue⟩ := publish_deliver_log raises hopen2 hlis2 hqe
  refine ⟨dispatchTo raises e.typeName e.fields
      (handlersFor (run raises (subscribeOp s0 e.typeName h) mid).registry e.typeName),
    hlog, ?_, hqueue⟩
  rw [count_invoked_dispatchTo]
  exact List.count_eq_one_of_mem (handlersFor_nodup e.typeName hinv2.2.1) hmem2

/-- Witness for C1 on a fresh bus: subscribe handler 5 to `"T"`, no
intervening activity, publish one `"T"` event, deliver it. -/
theorem claim_subscribe_publish_delivers_witness :
    ∃ ext,
      (run (fun _ _ => false) (run (fun _ _ => false) (subscribeOp initBus "T" 5) [])
        [.publish eventW, .deliver "T"]).log =
        (run (fun _ _ => false) (subscribeOp initBus "T" 5) []).log ++ ext ∧
      ext.count (LogEntry.invoked 5 "T" eventW.fields) = 1 ∧
      queueOf (run (fun _ _ => false) (run (fun _ _ => false) (subscribeOp initBus "T" 5) [])
        [.publish eventW, .deliver "T"]) "T" = [] :=
  claim_subscribe_publish_delivers (fun _ _ => false) initBus "T" 5 [] eventW
    inv_initBus (by decide) (by decide) (by decide) (by decide)

end EveBus
